import Mathlib

set_option maxRecDepth 100000

/-!
Verification development for the xiangqi_rust engine core
(crates/engine: bitboard.rs, constants.rs, move.rs, movelist.rs, move_gen.rs,
evaluate.rs, engine.rs, tt.rs, config.rs).

Shallow embedding conventions:
* Rust `u128` bitboards are `Nat` values below `2 ^ 128`; `!x` (u128 complement)
  is `bbNot`, i.e. xor with the all-ones 128-bit word.
* Rust `u64` hash values are `Nat` values below `2 ^ 64` (xor never overflows).
* Rust `i32` evaluation scores are `Int` (the operations used on them - addition,
  subtraction, negation - are ring operations, so wrap-around is immaterial to
  every stated property).
* Rust fixed-size arrays are total functions from the index type; all accesses
  performed by the embedded code stay inside the array bounds under the stated
  hypotheses, so the out-of-range values of those functions are never consulted.
* A Rust `panic!` (for example `Option::unwrap` on `None`) is modelled by
  returning `none` from an `Option`-valued embedding.
-/

/-- The 15 piece variants of constants.rs (Empty plus 7 types x 2 sides). -/
inductive Piece where
  | BKing | BGuard | BBishop | BHorse | BRook | BCannon | BPawn
  | Empty
  | RKing | RGuard | RBishop | RHorse | RRook | RCannon | RPawn
deriving DecidableEq, Repr

/-- The two sides, constants.rs `Player`. -/
inductive Player where
  | Red | Black
deriving DecidableEq, Repr

/-- The `i8` discriminant of each `Piece` variant (constants.rs: negative = Black). -/
def Piece.toInt : Piece → Int
  | .BKing => -1 | .BGuard => -2 | .BBishop => -3 | .BHorse => -4
  | .BRook => -5 | .BCannon => -6 | .BPawn => -7
  | .Empty => 0
  | .RKing => 1 | .RGuard => 2 | .RBishop => 3 | .RHorse => 4
  | .RRook => 5 | .RCannon => 6 | .RPawn => 7

/-- constants.rs `Piece::player`. -/
def Piece.player (p : Piece) : Option Player :=
  if p.toInt > 0 then some .Red else if p.toInt < 0 then some .Black else none

/-- constants.rs `Player::opponent`. -/
def Player.opponent : Player → Player
  | .Red => .Black
  | .Black => .Red

/-- constants.rs `Player::get_bb_idx` (0 for Red, 1 for Black). -/
def Player.get_bb_idx (p : Player) : Nat :=
  if p = .Red then 0 else 1

/-- constants.rs `Piece::abs_val`. -/
def Piece.abs_val (p : Piece) : Nat := p.toInt.natAbs

/-- constants.rs `Piece::is_major` (rook, horse or cannon of either side). -/
def Piece.is_major (p : Piece) : Bool :=
  match p with
  | .RRook | .BRook | .RHorse | .BHorse | .RCannon | .BCannon => true
  | _ => false

/-- constants.rs `Piece::from_abs` (signed value back to a piece, default Empty). -/
def Piece.from_abs (val : Int) : Piece :=
  if val = -1 then .BKing else if val = -2 then .BGuard
  else if val = -3 then .BBishop else if val = -4 then .BHorse
  else if val = -5 then .BRook else if val = -6 then .BCannon
  else if val = -7 then .BPawn
  else if val = 1 then .RKing else if val = 2 then .RGuard
  else if val = 3 then .RBishop else if val = 4 then .RHorse
  else if val = 5 then .RRook else if val = 6 then .RCannon
  else if val = 7 then .RPawn
  else .Empty

/-- constants.rs `Piece::get_bb_index`: Red pieces 0..6, Black pieces 7..13. -/
def Piece.get_bb_index (p : Piece) : Option Nat :=
  if p.toInt > 0 then some (p.toInt.toNat - 1)
  else if p.toInt < 0 then some (p.toInt.natAbs - 1 + 7)
  else none

/-- constants.rs `Piece::get_zobrist_idx`: Black pieces 0..6, Red pieces 7..13. -/
def Piece.get_zobrist_idx (p : Piece) : Option Nat :=
  if p.toInt < 0 then some (p.toInt.natAbs - 1)
  else if p.toInt > 0 then some (p.toInt.toNat + 6)
  else none

/-- constants.rs `Piece::from_fen_char`. -/
def Piece.from_fen_char (c : Char) : Option Piece :=
  if c = 'k' then some .BKing else if c = 'a' then some .BGuard
  else if c = 'b' then some .BBishop else if c = 'n' then some .BHorse
  else if c = 'r' then some .BRook else if c = 'c' then some .BCannon
  else if c = 'p' then some .BPawn
  else if c = 'K' then some .RKing else if c = 'A' then some .RGuard
  else if c = 'B' then some .RBishop else if c = 'N' then some .RHorse
  else if c = 'R' then some .RRook else if c = 'C' then some .RCannon
  else if c = 'P' then some .RPawn
  else none

/-- constants.rs `PIECE_VALUES`, indexed by `abs_val`. -/
def PIECE_VALUES : List Int := [0, 0, 100, 100, 450, 900, 500, 100]

/-- constants.rs `Piece::value`. -/
def Piece.value (p : Piece) : Int := PIECE_VALUES.getD p.abs_val 0

/-- evaluate.rs `MATERIAL_VALUES`, indexed by `abs_val`. -/
def MATERIAL_VALUES : List Int := [0, 10000, 200, 200, 450, 900, 500, 100]

/-! ### Bitboard primitives (bitboard.rs) -/

/-- bitboard.rs `SQUARE_MASKS[s] = 1 << s`. -/
def bbMask (s : Nat) : Nat := 2 ^ s

/-- The all-ones 128-bit word. -/
def bbAll : Nat := 2 ^ 128 - 1

/-- Rust `!x` on `u128`. -/
def bbNot (x : Nat) : Nat := bbAll ^^^ x

/-- Fuel-driven helper for `u128::trailing_zeros` (the fuel 128 covers every
128-bit value; the zero-fuel branch is unreachable for nonzero inputs). -/
def tzGo : Nat → Nat → Nat
  | 0, _ => 0
  | f + 1, n => if n % 2 = 1 then 0 else tzGo f (n / 2) + 1

/-- `u128::trailing_zeros` (128 on zero, as in Rust). -/
def trailing_zeros (n : Nat) : Nat := if n = 0 then 128 else tzGo 128 n

/-- Fuel-driven helper computing the index of the highest set bit. -/
def msbGo : Nat → Nat → Nat
  | 0, _ => 0
  | f + 1, n => if n < 2 then 0 else msbGo f (n / 2) + 1

/-- Rust `127 - x.leading_zeros()` on `u128`, i.e. the highest set bit index
(only evaluated on nonzero inputs by the embedded code). -/
def msb_index (n : Nat) : Nat := msbGo 128 n

/-- Fuel-driven helper for `count_ones`. -/
def popGo : Nat → Nat → Nat
  | 0, _ => 0
  | f + 1, n => n % 2 + popGo f (n / 2)

/-- bitboard.rs `popcount` (`u128::count_ones`). -/
def popcount (n : Nat) : Nat := popGo 128 n

/-- The set-bit squares of a bitboard in ascending order: the embedding of the
ubiquitous `while bb != 0 { s = bb.trailing_zeros(); ...; bb &= !MASK[s] }` loop. -/
def bitsGo : Nat → Nat → List Nat
  | 0, _ => []
  | f + 1, bb =>
    if bb = 0 then []
    else trailing_zeros bb :: bitsGo f (bb &&& bbNot (bbMask (trailing_zeros bb)))

/-- All squares of a bitboard, lowest first. -/
def squaresOf (bb : Nat) : List Nat := bitsGo 128 bb

/-- bitboard.rs `RANK_MASKS[r] = 0x1FF << (9 * r)`. -/
def rankMask (r : Nat) : Nat := 0x1FF <<< (9 * r)

/-! ### Zobrist keys

Modelled from the spec: lib.rs declares `pub mod zobrist;` but zobrist.rs is
absent from the source tree. Spec section 4.2 fixes only that the keys are a
compile-time table of 14 x 10 x 9 unsigned 64-bit constants plus one
side-to-move constant ("The numbers are compile-time constants so every run
produces identical hashes"). A fixed arbitrary table stands in; every property
proved below holds for any fixed table. -/

/-- Modelled from the spec: the fixed 64-bit Zobrist key for
(piece-zobrist-index, rank, file). -/
def ZOBRIST_KEYS (i r c : Nat) : Nat :=
  ((i * 1000003 + r * 10007 + c * 101 + 987654321) ^ 3) % (2 ^ 64)

/-- Modelled from the spec: the fixed 64-bit side-to-move Zobrist constant. -/
def ZOBRIST_PLAYER : Nat := 81985529216486895

/-- The Zobrist key of a piece on a square; 0 for Empty (the embedded code only
queries non-empty pieces, where Rust would `unwrap` the index). -/
def zobristKeyAt (p : Piece) (sq : Nat) : Nat :=
  match p.get_zobrist_idx with
  | some i => ZOBRIST_KEYS i (sq / 9) (sq % 9)
  | none => 0

/-- The piece-bitboard index of a non-empty piece (sentinel 14 for Empty, an
index the embedded code never consults: Rust would panic there). -/
def bbIndexOf (p : Piece) : Nat := (p.get_bb_index).getD 14

/-- The colour-bitboard index of a piece's owner (sentinel 2 for Empty). -/
def colorIdxOf (p : Piece) : Nat :=
  match p.player with
  | some pl => pl.get_bb_idx
  | none => 2

/-! ### Piece-square tables (evaluate.rs)

The crate declares `mod psts;` but psts.rs is absent from the crate directory;
the same tables appear inline in the repository's root tree (src/src/evaluate.rs),
from which the values below are transcribed. -/

def KING_PST_MG : List (List Int) := [
  [0, 0, 0, 8, 8, 8, 0, 0, 0],
  [0, 0, 0, 8, 8, 8, 0, 0, 0],
  [0, 0, 0, 6, 6, 6, 0, 0, 0],
  [0, 0, 0, 0, 0, 0, 0, 0, 0],
  [0, 0, 0, 0, 0, 0, 0, 0, 0],
  [0, 0, 0, 0, 0, 0, 0, 0, 0],
  [0, 0, 0, 0, 0, 0, 0, 0, 0],
  [0, 0, 0, 6, 6, 6, 0, 0, 0],
  [0, 0, 0, 8, 8, 8, 0, 0, 0],
  [0, 0, 0, 8, 8, 8, 0, 0, 0]]

def GUARD_PST_MG : List (List Int) := [
  [0, 0, 0, 20, 0, 20, 0, 0, 0],
  [0, 0, 0, 0, 23, 0, 0, 0, 0],
  [0, 0, 0, 20, 0, 20, 0, 0, 0],
  [0, 0, 0, 0, 0, 0, 0, 0, 0],
  [0, 0, 0, 0, 0, 0, 0, 0, 0],
  [0, 0, 0, 0, 0, 0, 0, 0, 0],
  [0, 0, 0, 0, 0, 0, 0, 0, 0],
  [0, 0, 0, 20, 0, 20, 0, 0, 0],
  [0, 0, 0, 0, 23, 0, 0, 0, 0],
  [0, 0, 0, 20, 0, 20, 0, 0, 0]]

def BISHOP_PST_MG : List (List Int) := [
  [0, 0, 20, 0, 0, 0, 20, 0, 0],
  [0, 0, 0, 0, 0, 0, 0, 0, 0],
  [0, 0, 0, 0, 23, 0, 0, 0, 0],
  [0, 0, 0, 0, 0, 0, 0, 0, 0],
  [0, 0, 20, 0, 0, 0, 20, 0, 0],
  [0, 0, 20, 0, 0, 0, 20, 0, 0],
  [0, 0, 0, 0, 0, 0, 0, 0, 0],
  [0, 0, 0, 0, 23, 0, 0, 0, 0],
  [0, 0, 0, 0, 0, 0, 0, 0, 0],
  [0, 0, 20, 0, 0, 0, 20, 0, 0]]

def HORSE_PST_MG : List (List Int) := [
  [90, 90, 90, 96, 90, 96, 90, 90, 90],
  [90, 96, 103, 97, 94, 97, 103, 96, 90],
  [92, 98, 99, 103, 99, 103, 99, 98, 92],
  [93, 108, 100, 107, 100, 107, 100, 108, 93],
  [90, 100, 99, 103, 104, 103, 99, 100, 90],
  [90, 98, 101, 102, 103, 102, 101, 98, 90],
  [92, 94, 98, 95, 98, 95, 98, 94, 92],
  [93, 92, 94, 95, 92, 95, 94, 92, 93],
  [85, 90, 92, 93, 78, 93, 92, 90, 85],
  [88, 85, 90, 88, 90, 88, 90, 85, 88]]

def ROOK_PST_MG : List (List Int) := [
  [206, 208, 207, 213, 214, 213, 207, 208, 206],
  [206, 212, 209, 216, 233, 216, 209, 212, 206],
  [206, 208, 207, 214, 216, 214, 207, 208, 206],
  [206, 213, 213, 216, 216, 216, 213, 213, 206],
  [208, 211, 211, 214, 215, 214, 211, 211, 208],
  [208, 212, 212, 214, 215, 214, 212, 212, 208],
  [204, 209, 204, 212, 214, 212, 204, 209, 204],
  [198, 208, 204, 212, 212, 212, 204, 208, 198],
  [200, 208, 206, 212, 200, 212, 206, 208, 200],
  [194, 206, 204, 212, 200, 212, 204, 206, 194]]

def CANNON_PST_MG : List (List Int) := [
  [100, 100, 96, 91, 90, 91, 96, 100, 100],
  [98, 98, 96, 92, 89, 92, 96, 98, 98],
  [97, 97, 96, 91, 92, 91, 96, 97, 97],
  [96, 99, 99, 98, 100, 98, 99, 99, 96],
  [96, 96, 96, 96, 100, 96, 96, 96, 96],
  [95, 96, 99, 96, 100, 96, 99, 96, 95],
  [96, 96, 96, 96, 96, 96, 96, 96, 96],
  [97, 96, 100, 99, 101, 99, 100, 96, 97],
  [96, 97, 98, 98, 98, 98, 98, 97, 96],
  [96, 96, 97, 99, 99, 99, 97, 96, 96]]

def PAWN_PST_MG : List (List Int) := [
  [9, 9, 9, 11, 13, 11, 9, 9, 9],
  [19, 24, 34, 42, 44, 42, 34, 24, 19],
  [19, 24, 32, 37, 37, 37, 32, 24, 19],
  [19, 23, 27, 29, 30, 29, 27, 23, 19],
  [14, 18, 20, 27, 29, 27, 20, 18, 14],
  [7, 0, 13, 0, 16, 0, 13, 0, 7],
  [7, 0, 7, 0, 15, 0, 7, 0, 7],
  [0, 0, 0, 0, 0, 0, 0, 0, 0],
  [0, 0, 0, 0, 0, 0, 0, 0, 0],
  [0, 0, 0, 0, 0, 0, 0, 0, 0]]

def PAWN_PST_EG : List (List Int) := [
  [20, 20, 20, 25, 30, 25, 20, 20, 20],
  [40, 50, 60, 70, 75, 70, 60, 50, 40],
  [40, 50, 60, 65, 70, 65, 60, 50, 40],
  [40, 50, 55, 60, 60, 60, 55, 50, 40],
  [30, 40, 45, 50, 50, 50, 45, 40, 30],
  [15, 20, 25, 30, 30, 30, 25, 20, 15],
  [10, 15, 20, 20, 20, 20, 20, 15, 10],
  [5, 5, 5, 5, 5, 5, 5, 5, 5],
  [0, 0, 0, 0, 0, 0, 0, 0, 0],
  [0, 0, 0, 0, 0, 0, 0, 0, 0]]

/-- evaluate.rs `get_pst_mg`. -/
def get_pst_mg (p : Piece) : List (List Int) :=
  match p with
  | .RKing | .BKing => KING_PST_MG
  | .RGuard | .BGuard => GUARD_PST_MG
  | .RBishop | .BBishop => BISHOP_PST_MG
  | .RHorse | .BHorse => HORSE_PST_MG
  | .RRook | .BRook => ROOK_PST_MG
  | .RCannon | .BCannon => CANNON_PST_MG
  | .RPawn | .BPawn => PAWN_PST_MG
  | .Empty => KING_PST_MG

/-- evaluate.rs `get_pst_eg`. -/
def get_pst_eg (p : Piece) : List (List Int) :=
  match p with
  | .RPawn | .BPawn => PAWN_PST_EG
  | _ => get_pst_mg p

/-- Row/column lookup into a piece-square table. -/
def pstAt (t : List (List Int)) (r c : Nat) : Int := (t.getD r []).getD c 0

/-- evaluate.rs `get_pst_scores` (the incremental lookup used by make/unmake):
both colours are looked up at (9 - rank, 8 - file) and Black is negated.
Returns (0, 0) for Empty, where Rust would panic on `player().unwrap()`. -/
def get_pst_scores (piece : Piece) (sq : Nat) : Int × Int :=
  match piece.player with
  | none => (0, 0)
  | some player =>
    let r := sq / 9
    let c := sq % 9
    let pst_r := 9 - r
    let pst_c := 8 - c
    let mg_pst := pstAt (get_pst_mg piece) pst_r pst_c
    let eg_pst := pstAt (get_pst_eg piece) pst_r pst_c
    if player = .Red then (mg_pst, eg_pst) else (-mg_pst, -eg_pst)

/-! ### Move encoding (move.rs) -/

/-- move.rs `Move`: bits 0..6 from-square, 7..13 to-square, bit 14 capture flag. -/
structure Move where
  val : Nat
deriving DecidableEq, Repr

/-- move.rs `Move::new` (squares are always below 90 at every call site, so the
u16 narrowing in Rust is the identity). -/
def Move.new (from_sq to_sq : Nat) (captured_piece : Option Piece) : Move :=
  ⟨from_sq ||| (to_sq <<< 7) ||| (if captured_piece.isSome then 1 <<< 14 else 0)⟩

/-- move.rs `Move::from_sq`. -/
def Move.from_sq (m : Move) : Nat := m.val &&& 0x7F

/-- move.rs `Move::to_sq`. -/
def Move.to_sq (m : Move) : Nat := (m.val >>> 7) &&& 0x7F

/-- move.rs `Move::is_capture`. -/
def Move.is_capture (m : Move) : Bool := (m.val >>> 14) &&& 1 != 0

/-- The all-zero null move `Move::new(0, 0, None)`. -/
def nullMove : Move := Move.new 0 0 none

/-- movelist.rs `MoveList::add`: appends, silently dropping past 256 entries. -/
def movelist_add (l : List Move) (m : Move) : List Move :=
  if l.length < 256 then l ++ [m] else l

/-! ### Board state (bitboard.rs) -/

/-- bitboard.rs `Board`. Arrays become total functions; only indexes below
14 / 2 / 90 / 256 respectively are ever consulted by the embedded code. -/
structure Board where
  piece_bitboards : Nat → Nat
  color_bitboards : Nat → Nat
  board : Nat → Piece
  player_to_move : Player
  hash_key : Nat
  history : Nat → Nat
  history_ply : Nat
  material_score : Int
  mg_pst_score : Int
  eg_pst_score : Int

/-- bitboard.rs `Board::new`. -/
def Board.new : Board where
  piece_bitboards := fun _ => 0
  color_bitboards := fun _ => 0
  board := fun _ => Piece.Empty
  player_to_move := .Red
  hash_key := 0
  history := fun _ => 0
  history_ply := 0
  material_score := 0
  mg_pst_score := 0
  eg_pst_score := 0

/-- bitboard.rs `Board::occupied_bitboard`. -/
def Board.occupied_bitboard (b : Board) : Nat :=
  b.color_bitboards 0 ||| b.color_bitboards 1

/-- bitboard.rs `Board::set_piece` (piece is never Empty at any call site). -/
def Board.set_piece (b : Board) (sq : Nat) (piece : Piece) : Board :=
  { b with
    board := Function.update b.board sq piece
    piece_bitboards :=
      Function.update b.piece_bitboards (bbIndexOf piece)
        (b.piece_bitboards (bbIndexOf piece) ||| bbMask sq)
    color_bitboards :=
      Function.update b.color_bitboards (colorIdxOf piece)
        (b.color_bitboards (colorIdxOf piece) ||| bbMask sq)
    hash_key := b.hash_key ^^^ zobristKeyAt piece sq }

/-- bitboard.rs `Board::update_scores_for_move`. -/
def Board.update_scores_for_move (b : Board) (moving_piece captured_piece : Piece)
    (from_sq to_sq : Nat) : Board :=
  let fromScores := get_pst_scores moving_piece from_sq
  let b := { b with mg_pst_score := b.mg_pst_score - fromScores.1,
                    eg_pst_score := b.eg_pst_score - fromScores.2 }
  let b :=
    if captured_piece ≠ Piece.Empty then
      let captured_value := MATERIAL_VALUES.getD captured_piece.abs_val 0
      let b :=
        if captured_piece.player = some .Black then
          { b with material_score := b.material_score + captured_value }
        else
          { b with material_score := b.material_score - captured_value }
      let capScores := get_pst_scores captured_piece to_sq
      { b with mg_pst_score := b.mg_pst_score - capScores.1,
               eg_pst_score := b.eg_pst_score - capScores.2 }
    else b
  let toScores := get_pst_scores moving_piece to_sq
  { b with mg_pst_score := b.mg_pst_score + toScores.1,
           eg_pst_score := b.eg_pst_score + toScores.2 }

/-- bitboard.rs `Board::update_board_and_bitboards_for_move` (reads the side to
move, which has not yet been flipped). -/
def Board.update_board_and_bitboards_for_move (b : Board)
    (moving_piece captured_piece : Piece) (from_sq to_sq : Nat) : Board :=
  let b := { b with board := Function.update (Function.update b.board from_sq Piece.Empty)
                               to_sq moving_piece }
  let move_mask := bbMask from_sq ||| bbMask to_sq
  let b := { b with
    piece_bitboards := Function.update b.piece_bitboards (bbIndexOf moving_piece)
      (b.piece_bitboards (bbIndexOf moving_piece) ^^^ move_mask)
    color_bitboards := Function.update b.color_bitboards (b.player_to_move.get_bb_idx)
      (b.color_bitboards (b.player_to_move.get_bb_idx) ^^^ move_mask) }
  if captured_piece ≠ Piece.Empty then
    { b with
      piece_bitboards := Function.update b.piece_bitboards (bbIndexOf captured_piece)
        (b.piece_bitboards (bbIndexOf captured_piece) &&& bbNot (bbMask to_sq))
      color_bitboards := Function.update b.color_bitboards (colorIdxOf captured_piece)
        (b.color_bitboards (colorIdxOf captured_piece) &&& bbNot (bbMask to_sq)) }
  else b

/-- bitboard.rs `Board::update_hash_for_move`. -/
def Board.update_hash_for_move (b : Board) (moving_piece captured_piece : Piece)
    (from_sq to_sq : Nat) : Board :=
  let h := b.hash_key ^^^ zobristKeyAt moving_piece from_sq
             ^^^ zobristKeyAt moving_piece to_sq
  let h := if captured_piece ≠ Piece.Empty
           then h ^^^ zobristKeyAt captured_piece to_sq else h
  { b with hash_key := h }

/-- bitboard.rs `Board::move_piece`; returns the new board and the captured piece. -/
def Board.move_piece (b : Board) (mv : Move) : Board × Piece :=
  let from_sq := mv.from_sq
  let to_sq := mv.to_sq
  let moving_piece := b.board from_sq
  let captured_piece := b.board to_sq
  let b := b.update_scores_for_move moving_piece captured_piece from_sq to_sq
  let b := b.update_board_and_bitboards_for_move moving_piece captured_piece from_sq to_sq
  let b := b.update_hash_for_move moving_piece captured_piece from_sq to_sq
  let b := { b with player_to_move := b.player_to_move.opponent,
                    hash_key := b.hash_key ^^^ ZOBRIST_PLAYER }
  let b := { b with history_ply := b.history_ply + 1 }
  let b := { b with history := Function.update b.history b.history_ply b.hash_key }
  (b, captured_piece)

/-- bitboard.rs `Board::update_scores_for_unmove`. -/
def Board.update_scores_for_unmove (b : Board) (moving_piece captured_piece : Piece)
    (from_sq to_sq : Nat) : Board :=
  let toScores := get_pst_scores moving_piece to_sq
  let b := { b with mg_pst_score := b.mg_pst_score - toScores.1,
                    eg_pst_score := b.eg_pst_score - toScores.2 }
  let fromScores := get_pst_scores moving_piece from_sq
  let b := { b with mg_pst_score := b.mg_pst_score + fromScores.1,
                    eg_pst_score := b.eg_pst_score + fromScores.2 }
  if captured_piece ≠ Piece.Empty then
    let captured_value := MATERIAL_VALUES.getD captured_piece.abs_val 0
    let b :=
      if captured_piece.player = some .Black then
        { b with material_score := b.material_score - captured_value }
      else
        { b with material_score := b.material_score + captured_value }
    let capScores := get_pst_scores captured_piece to_sq
    { b with mg_pst_score := b.mg_pst_score + capScores.1,
             eg_pst_score := b.eg_pst_score + capScores.2 }
  else b

/-- bitboard.rs `Board::update_board_and_bitboards_for_unmove`. -/
def Board.update_board_and_bitboards_for_unmove (b : Board)
    (moving_piece captured_piece : Piece) (from_sq to_sq : Nat) : Board :=
  let b := { b with board := Function.update (Function.update b.board from_sq moving_piece)
                               to_sq captured_piece }
  let move_mask := bbMask from_sq ||| bbMask to_sq
  let b := { b with
    piece_bitboards := Function.update b.piece_bitboards (bbIndexOf moving_piece)
      (b.piece_bitboards (bbIndexOf moving_piece) ^^^ move_mask)
    color_bitboards := Function.update b.color_bitboards (colorIdxOf moving_piece)
      (b.color_bitboards (colorIdxOf moving_piece) ^^^ move_mask) }
  if captured_piece ≠ Piece.Empty then
    { b with
      piece_bitboards := Function.update b.piece_bitboards (bbIndexOf captured_piece)
        (b.piece_bitboards (bbIndexOf captured_piece) ||| bbMask to_sq)
      color_bitboards := Function.update b.color_bitboards (colorIdxOf captured_piece)
        (b.color_bitboards (colorIdxOf captured_piece) ||| bbMask to_sq) }
  else b

/-- bitboard.rs `Board::update_hash_for_unmove`. -/
def Board.update_hash_for_unmove (b : Board) (moving_piece captured_piece : Piece)
    (from_sq to_sq : Nat) : Board :=
  let h := b.hash_key ^^^ zobristKeyAt moving_piece from_sq
             ^^^ zobristKeyAt moving_piece to_sq
  let h := if captured_piece ≠ Piece.Empty
           then h ^^^ zobristKeyAt captured_piece to_sq else h
  { b with hash_key := h }

/-- bitboard.rs `Board::unmove_piece`. -/
def Board.unmove_piece (b : Board) (mv : Move) (captured_piece : Piece) : Board :=
  let b := { b with history_ply := b.history_ply - 1 }
  let from_sq := mv.from_sq
  let to_sq := mv.to_sq
  let moving_piece := b.board to_sq
  let b := { b with player_to_move := b.player_to_move.opponent,
                    hash_key := b.hash_key ^^^ ZOBRIST_PLAYER }
  let b := b.update_scores_for_unmove moving_piece captured_piece from_sq to_sq
  let b := b.update_board_and_bitboards_for_unmove moving_piece captured_piece from_sq to_sq
  b.update_hash_for_unmove moving_piece captured_piece from_sq to_sq

/-! ### Attack tables (move_gen.rs `AttackTables`) -/

/-- move_gen.rs `sq_to_idx`. -/
def sq_to_idx (r c : Nat) : Nat := r * 9 + c

/-- The four ray directions of move_gen.rs `Direction`. -/
inductive Dir where
  | North | East | South | West
deriving DecidableEq, Repr

/-- move_gen.rs `is_valid` on signed coordinates. -/
def coordValid (r c : Int) : Bool := 0 ≤ r && r < 10 && 0 ≤ c && c < 9

/-- The palace test used for king and guard targets in
`precompute_king_and_guard_attacks`. -/
def palaceOk (nr nc : Int) : Bool :=
  3 ≤ nc && nc ≤ 5 && ((0 ≤ nr && nr ≤ 2) || (7 ≤ nr && nr ≤ 9))

/-- Builds a bitboard from square-valued offset targets that pass a filter. -/
def offsetMask (sq : Nat) (offs : List (Int × Int)) (ok : Int → Int → Bool) : Nat :=
  let r : Int := (sq / 9 : Nat)
  let c : Int := (sq % 9 : Nat)
  offs.foldl (fun acc d =>
    let nr := r + d.1
    let nc := c + d.2
    if ok nr nc then acc ||| bbMask (sq_to_idx nr.toNat nc.toNat) else acc) 0

/-- move_gen.rs `king[sq]`: orthogonal steps confined to a palace. -/
def king_table (sq : Nat) : Nat :=
  offsetMask sq [(0, 1), (0, -1), (1, 0), (-1, 0)] palaceOk

/-- move_gen.rs `guard[sq]`: diagonal steps confined to a palace. -/
def guard_table (sq : Nat) : Nat :=
  offsetMask sq [(1, 1), (1, -1), (-1, 1), (-1, -1)] palaceOk

/-- The bishop offsets paired with their "eye" (leg) offsets; the leg offset is
the integer half of the move offset, as computed in
`precompute_bishop_and_horse_attacks`. -/
def bishopOffs : List ((Int × Int) × (Int × Int)) :=
  [((2, 2), (1, 1)), ((2, -2), (1, -1)), ((-2, 2), (-1, 1)), ((-2, -2), (-1, -1))]

/-- The horse offsets paired with their leg offsets ((dr/2, 0) for vertical
moves, (0, dc/2) for horizontal ones, as in the source). -/
def horseOffs : List ((Int × Int) × (Int × Int)) :=
  [((2, 1), (1, 0)), ((2, -1), (1, 0)), ((-2, 1), (-1, 0)), ((-2, -1), (-1, 0)),
   ((1, 2), (0, 1)), ((1, -2), (0, -1)), ((-1, 2), (0, 1)), ((-1, -2), (0, -1))]

/-- move_gen.rs `bishop[sq]`: diagonal-two targets on the full board. -/
def bishop_table (sq : Nat) : Nat :=
  offsetMask sq (bishopOffs.map (·.1)) coordValid

/-- move_gen.rs `horse[sq]`. -/
def horse_table (sq : Nat) : Nat :=
  offsetMask sq (horseOffs.map (·.1)) coordValid

/-- Leg lookup shared by `bishop_legs` and `horse_legs`: the leg square stored
for the (from, to) pair, 0 when the pair is not a valid offset (the Rust arrays
are zero-initialised). -/
def legLookup (offs : List ((Int × Int) × (Int × Int))) (from_sq to_sq : Nat) : Nat :=
  let r : Int := (from_sq / 9 : Nat)
  let c : Int := (from_sq % 9 : Nat)
  offs.foldl (fun acc d =>
    let nr := r + d.1.1
    let nc := c + d.1.2
    if coordValid nr nc && sq_to_idx nr.toNat nc.toNat = to_sq then
      sq_to_idx (r + d.2.1).toNat (c + d.2.2).toNat
    else acc) 0

/-- move_gen.rs `bishop_legs[from][to]`. -/
def bishop_legs (from_sq to_sq : Nat) : Nat := legLookup bishopOffs from_sq to_sq

/-- move_gen.rs `horse_legs[from][to]`. -/
def horse_legs (from_sq to_sq : Nat) : Nat := legLookup horseOffs from_sq to_sq

/-- move_gen.rs `pawn[player_idx][sq]` (forward step, plus sideways steps once
across the river). -/
def pawn_table (player_idx sq : Nat) : Nat :=
  let r := sq / 9
  let c := sq % 9
  if player_idx = 0 then
    let acc := if r ≥ 1 then bbMask (sq_to_idx (r - 1) c) else 0
    if r < 5 then
      let acc := if c ≥ 1 then acc ||| bbMask (sq_to_idx r (c - 1)) else acc
      if c + 1 < 9 then acc ||| bbMask (sq_to_idx r (c + 1)) else acc
    else acc
  else
    let acc := if r + 1 < 10 then bbMask (sq_to_idx (r + 1) c) else 0
    if r > 4 then
      let acc := if c ≥ 1 then acc ||| bbMask (sq_to_idx r (c - 1)) else acc
      if c + 1 < 9 then acc ||| bbMask (sq_to_idx r (c + 1)) else acc
    else acc

/-- The squares of a ray in the order the source's `precompute_rays` loop visits
them, which is nearest-to-`sq` first. -/
def ray_squares (d : Dir) (sq : Nat) : List Nat :=
  match d with
  | .North => ((List.range (sq / 9)).reverse).map (fun i => sq_to_idx i (sq % 9))
  | .East => (List.range' (sq % 9 + 1) (8 - sq % 9)).map (fun j => sq_to_idx (sq / 9) j)
  | .South => (List.range' (sq / 9 + 1) (9 - sq / 9)).map (fun i => sq_to_idx i (sq % 9))
  | .West => ((List.range (sq % 9)).reverse).map (fun j => sq_to_idx (sq / 9) j)

/-- Bitboard of a square list. -/
def maskOfList (L : List Nat) : Nat := L.foldl (fun acc s => acc ||| bbMask s) 0

/-- move_gen.rs `rays[dir][sq]`. -/
def rays (d : Dir) (sq : Nat) : Nat := maskOfList (ray_squares d sq)

/-- move_gen.rs `red_half_mask` (squares 45..89). -/
def red_half_mask : Nat := maskOfList (List.range' 45 45)

/-- move_gen.rs `black_half_mask` (squares 0..44). -/
def black_half_mask : Nat := maskOfList (List.range 45)

/-! ### Sliding attacks and the attack predicate (move_gen.rs) -/

/-- move_gen.rs `get_sliding_piece_moves`. -/
def get_sliding_piece_moves (sq : Nat) (occupied : Nat) (is_cannon : Bool) : Nat :=
  [Dir.North, Dir.East, Dir.South, Dir.West].foldl (fun final_attacks d =>
    let ray := rays d sq
    let blockers := occupied &&& ray
    if !is_cannon then
      if blockers ≠ 0 then
        let first_blocker :=
          if d = Dir.North || d = Dir.West then msb_index blockers
          else trailing_zeros blockers
        final_attacks ||| ((ray ^^^ rays d first_blocker) ||| bbMask first_blocker)
      else final_attacks ||| ray
    else
      if blockers ≠ 0 then
        let screen :=
          if d = Dir.North || d = Dir.West then msb_index blockers
          else trailing_zeros blockers
        let final_attacks := final_attacks ||| ((ray ^^^ rays d screen) ^^^ bbMask screen)
        let remaining_blockers := blockers ^^^ bbMask screen
        if remaining_blockers ≠ 0 then
          let target :=
            if d = Dir.North || d = Dir.West then msb_index remaining_blockers
            else trailing_zeros remaining_blockers
          final_attacks ||| bbMask target
        else final_attacks
      else final_attacks ||| ray) 0

/-- move_gen.rs `get_rook_moves_bb`. -/
def get_rook_moves_bb (sq : Nat) (occupied : Nat) : Nat :=
  get_sliding_piece_moves sq occupied false

/-- move_gen.rs `get_cannon_moves_bb`. -/
def get_cannon_moves_bb (sq : Nat) (occupied : Nat) : Nat :=
  get_sliding_piece_moves sq occupied true

/-- move_gen.rs `is_attacked_by_pawn`. -/
def is_attacked_by_pawn (b : Board) (sq : Nat) (attacker_player : Player) : Bool :=
  let pawn_type := if attacker_player = .Red then Piece.RPawn else Piece.BPawn
  let defender_idx := if attacker_player = .Red then 1 else 0
  (pawn_table defender_idx sq &&& b.piece_bitboards (bbIndexOf pawn_type)) ≠ 0

/-- move_gen.rs `is_attacked_by_king`. -/
def is_attacked_by_king (b : Board) (sq : Nat) (attacker_player : Player) : Bool :=
  let king_type := if attacker_player = .Red then Piece.RKing else Piece.BKing
  (king_table sq &&& b.piece_bitboards (bbIndexOf king_type)) ≠ 0

/-- move_gen.rs `is_attacked_by_horse` (candidate horses on `horse[sq]`, each
needing an empty leg). -/
def is_attacked_by_horse (b : Board) (sq : Nat) (attacker_player : Player) : Bool :=
  let horse_type := if attacker_player = .Red then Piece.RHorse else Piece.BHorse
  (squaresOf (horse_table sq &&& b.piece_bitboards (bbIndexOf horse_type))).any
    (fun from_sq => (b.occupied_bitboard &&& bbMask (horse_legs from_sq sq)) = 0)

/-- move_gen.rs `is_attacked_by_bishop`. -/
def is_attacked_by_bishop (b : Board) (sq : Nat) (attacker_player : Player) : Bool :=
  let bishop_type := if attacker_player = .Red then Piece.RBishop else Piece.BBishop
  let potential := bishop_table sq &&& b.piece_bitboards (bbIndexOf bishop_type)
  if potential ≠ 0 then
    let side_mask := if attacker_player = .Red then red_half_mask else black_half_mask
    if (side_mask &&& bbMask sq) ≠ 0 then
      (squaresOf potential).any
        (fun from_sq => (b.occupied_bitboard &&& bbMask (bishop_legs from_sq sq)) = 0)
    else false
  else false

/-- move_gen.rs `is_attacked_by_rook`. -/
def is_attacked_by_rook (b : Board) (sq : Nat) (attacker_player : Player) : Bool :=
  let rook_type := if attacker_player = .Red then Piece.RRook else Piece.BRook
  (get_rook_moves_bb sq b.occupied_bitboard &&& b.piece_bitboards (bbIndexOf rook_type)) ≠ 0

/-- move_gen.rs `is_attacked_by_cannon`. -/
def is_attacked_by_cannon (b : Board) (sq : Nat) (attacker_player : Player) : Bool :=
  let cannon_type := if attacker_player = .Red then Piece.RCannon else Piece.BCannon
  (get_cannon_moves_bb sq b.occupied_bitboard &&& b.piece_bitboards (bbIndexOf cannon_type)) ≠ 0

/-- move_gen.rs `is_square_attacked_by`. -/
def is_square_attacked_by (b : Board) (sq : Nat) (attacker_player : Player) : Bool :=
  is_attacked_by_pawn b sq attacker_player
  || is_attacked_by_king b sq attacker_player
  || is_attacked_by_horse b sq attacker_player
  || is_attacked_by_bishop b sq attacker_player
  || is_attacked_by_rook b sq attacker_player
  || is_attacked_by_cannon b sq attacker_player

/-- The mask built by the flying-general loop of `is_king_in_check`: squares
strictly between the two king squares that lie on the king's file. -/
def betweenFileMask (min_sq max_sq file : Nat) : Nat :=
  (List.range' (min_sq + 9) (max_sq - (min_sq + 9))).foldl
    (fun acc s => if s % 9 = file then acc ||| bbMask s else acc) 0

/-- move_gen.rs `is_king_in_check`: attacked king square, or flying generals. -/
def is_king_in_check (b : Board) (player : Player) : Bool :=
  let king_piece := if player = .Red then Piece.RKing else Piece.BKing
  let king_bb := b.piece_bitboards (bbIndexOf king_piece)
  if king_bb = 0 then true
  else
    let king_sq := trailing_zeros king_bb
    if is_square_attacked_by b king_sq player.opponent then true
    else
      let opponent_king_piece := if player = .Red then Piece.BKing else Piece.RKing
      let opponent_king_bb := b.piece_bitboards (bbIndexOf opponent_king_piece)
      if opponent_king_bb = 0 then false
      else
        let opponent_king_sq := trailing_zeros opponent_king_bb
        if king_sq % 9 ≠ opponent_king_sq % 9 then false
        else
          let occupied := b.occupied_bitboard
          let min_sq := min king_sq opponent_king_sq
          let max_sq := max king_sq opponent_king_sq
          let between_mask := betweenFileMask min_sq max_sq (king_sq % 9)
          if (occupied &&& between_mask) = 0 then true else false

/-! ### Move generation (bitboard.rs `generate_moves` etc.) -/

/-- bitboard.rs `MoveGenType`. -/
inductive MoveGenType where
  | All | Captures | Quiets
deriving DecidableEq, Repr

/-- bitboard.rs `Board::add_moves`: one move per set bit of `moves_bb`,
lowest square first. -/
def Board.add_moves (b : Board) (moves : List Move) (from_sq : Nat)
    (moves_bb : Nat) (is_capture : Bool) : List Move :=
  (squaresOf moves_bb).foldl
    (fun acc to_sq =>
      movelist_add acc (Move.new from_sq to_sq
        (if is_capture then some (b.board to_sq) else none)))
    moves

/-- bitboard.rs `Board::get_piece_moves` (the board parameter matches the Rust
receiver; only the tables and the occupancy argument are consulted). -/
def Board.get_piece_moves (_b : Board) (piece_type : Piece) (from_sq : Nat)
    (occupied : Nat) (player_idx : Nat) : Nat :=
  match piece_type with
  | .RKing | .BKing => king_table from_sq
  | .RGuard | .BGuard => guard_table from_sq
  | .RBishop =>
    (squaresOf (bishop_table from_sq &&& red_half_mask)).foldl
      (fun moves_bb to_sq =>
        if (occupied &&& bbMask (bishop_legs from_sq to_sq)) = 0 then
          moves_bb ||| bbMask to_sq
        else moves_bb) 0
  | .BBishop =>
    (squaresOf (bishop_table from_sq &&& black_half_mask)).foldl
      (fun moves_bb to_sq =>
        if (occupied &&& bbMask (bishop_legs from_sq to_sq)) = 0 then
          moves_bb ||| bbMask to_sq
        else moves_bb) 0
  | .RHorse | .BHorse =>
    (squaresOf (horse_table from_sq)).foldl
      (fun moves_bb to_sq =>
        if (occupied &&& bbMask (horse_legs from_sq to_sq)) = 0 then
          moves_bb ||| bbMask to_sq
        else moves_bb) 0
  | .RPawn | .BPawn => pawn_table player_idx from_sq
  | .RRook | .BRook => get_rook_moves_bb from_sq occupied
  | .RCannon | .BCannon => get_cannon_moves_bb from_sq occupied
  | _ => 0

/-- bitboard.rs `Board::generate_moves`. -/
def Board.generate_moves (b : Board) (moves : List Move) (ty : MoveGenType) : List Move :=
  let player_idx := b.player_to_move.get_bb_idx
  let own_pieces_bb := b.color_bitboards player_idx
  let opponent_pieces_bb := b.color_bitboards (1 - player_idx)
  let occupied := own_pieces_bb ||| opponent_pieces_bb
  let piece_start_idx := if b.player_to_move = .Red then 0 else 7
  (List.range' piece_start_idx 7).foldl (fun moves i =>
    let piece_bb := b.piece_bitboards i
    if piece_bb = 0 then moves
    else
      let piece_type := b.board (trailing_zeros piece_bb)
      (squaresOf piece_bb).foldl (fun moves from_sq =>
        let moves_bb := b.get_piece_moves piece_type from_sq occupied player_idx
        match ty with
        | .All =>
          let moves := b.add_moves moves from_sq (moves_bb &&& opponent_pieces_bb) true
          b.add_moves moves from_sq (moves_bb &&& bbNot occupied) false
        | .Captures => b.add_moves moves from_sq (moves_bb &&& opponent_pieces_bb) true
        | .Quiets => b.add_moves moves from_sq (moves_bb &&& bbNot occupied) false) moves)
    moves

/-- bitboard.rs `Board::generate_capture_moves`. -/
def Board.generate_capture_moves (b : Board) (moves : List Move) : List Move :=
  b.generate_moves moves .Captures

/-- bitboard.rs `Board::generate_quiet_moves`. -/
def Board.generate_quiet_moves (b : Board) (moves : List Move) : List Move :=
  b.generate_moves moves .Quiets

/-- bitboard.rs `Board::generate_legal_moves`: pseudo-legal captures then
quiets, keeping the moves after which the mover's king is not in check. The
source tests each candidate with a make / test / unmake sequence on the
mutable board; since `unmove_piece` restores every field consulted afterwards,
this is embedded as a pure filter on the pre-move board. -/
def Board.generate_legal_moves (b : Board) : List Move :=
  let pseudo := b.generate_quiet_moves (b.generate_capture_moves [])
  pseudo.foldl (fun acc mv =>
    let bm := (b.move_piece mv).1
    if !is_king_in_check bm bm.player_to_move.opponent then movelist_add acc mv
    else acc) []

/-! ### From-scratch evaluation accumulators (evaluate.rs) -/

/-- evaluate.rs `calculate_material_score`. -/
def calculate_material_score (b : Board) : Int :=
  (List.range' 1 7).foldl (fun material_score i =>
    let red_piece := Piece.from_abs (Int.ofNat i)
    let black_piece := Piece.from_abs (-(Int.ofNat i))
    material_score
      + (popcount (b.piece_bitboards (bbIndexOf red_piece)) : Int)
          * MATERIAL_VALUES.getD i 0
      - (popcount (b.piece_bitboards (bbIndexOf black_piece)) : Int)
          * MATERIAL_VALUES.getD i 0) 0

/-- evaluate.rs `calculate_pst_scores` (the from-scratch PST walk: Red pieces
are looked up at (9 - rank, 8 - file), Black pieces at (rank, file), and Black
contributions are subtracted). -/
def calculate_pst_scores (b : Board) : Int × Int :=
  (List.range 14).foldl (fun acc i =>
    let piece_bb := b.piece_bitboards i
    if piece_bb = 0 then acc
    else
      let piece_type := b.board (trailing_zeros piece_bb)
      match piece_type.player with
      | none => acc
      | some player =>
        let mg_table := get_pst_mg piece_type
        let eg_table := get_pst_eg piece_type
        (squaresOf piece_bb).foldl (fun acc sq =>
          let r := sq / 9
          let c := sq % 9
          let pr := if player = .Red then 9 - r else r
          let pc := if player = .Red then 8 - c else c
          let mg_pst := pstAt mg_table pr pc
          let eg_pst := pstAt eg_table pr pc
          if player = .Red then (acc.1 + mg_pst, acc.2 + eg_pst)
          else (acc.1 - mg_pst, acc.2 - eg_pst)) acc) (0, 0)

/-- evaluate.rs `calculate_full_scores`. -/
def calculate_full_scores (b : Board) : Int × Int × Int :=
  (calculate_material_score b, (calculate_pst_scores b).1, (calculate_pst_scores b).2)

/-! ### FEN parsing (bitboard.rs `Board::from_fen`) -/

/-- Rust `str::split_whitespace` on a character list (helper). -/
def splitWsGo : List Char → List Char → List (List Char)
  | [], cur => if cur.isEmpty then [] else [cur.reverse]
  | c :: rest, cur =>
    if c.isWhitespace then
      if cur.isEmpty then splitWsGo rest [] else cur.reverse :: splitWsGo rest []
    else splitWsGo rest (c :: cur)

/-- Rust `str::split_whitespace`. -/
def splitWs (l : List Char) : List (List Char) := splitWsGo l []

/-- The layout loop of `from_fen`, threading (board, rank, file). `none` models
a Rust panic: an unknown piece letter (`unwrap` on `from_fen_char`) or a square
index reaching 90 (out-of-bounds `SQUARE_MASKS[sq]`). -/
def parseLayout : List Char → Board → Nat → Nat → Option (Board × Nat × Nat)
  | [], b, rank, file => some (b, rank, file)
  | ch :: rest, b, rank, file =>
    if ch = '/' then parseLayout rest b (rank + 1) 0
    else if ch.isDigit then parseLayout rest b rank (file + (ch.toNat - 48))
    else
      match Piece.from_fen_char ch with
      | none => none
      | some piece =>
        let sq := rank * 9 + file
        if sq < 90 then parseLayout rest (b.set_piece sq piece) rank (file + 1)
        else none

/-- bitboard.rs `Board::from_fen`. `none` models a Rust panic (missing layout
or side token, unknown piece letter, square index out of range). -/
def from_fen (fen : String) : Option Board :=
  match splitWs fen.data with
  | [] => none
  | layout :: parts =>
    match parseLayout layout Board.new 0 0 with
    | none => none
    | some (b, _, _) =>
      match parts with
      | [] => none
      | player :: _ =>
        let b := { b with player_to_move := if player = ['w'] then .Red else .Black }
        let b :=
          if b.player_to_move = .Black then
            { b with hash_key := b.hash_key ^^^ ZOBRIST_PLAYER }
          else b
        let scores := calculate_full_scores b
        let b := { b with material_score := scores.1,
                          mg_pst_score := scores.2.1,
                          eg_pst_score := scores.2.2 }
        some { b with history := Function.update b.history b.history_ply b.hash_key }

/-! ### Transposition table (tt.rs) -/

/-- tt.rs `TtFlag`. -/
inductive TtFlag where
  | Exact | LowerBound | UpperBound
deriving DecidableEq, Repr

/-- tt.rs `TtEntry`. -/
structure TtEntry where
  hash_key : Nat
  depth : Int
  score : Int
  flag : TtFlag
  best_move : Move
deriving DecidableEq, Repr

/-- tt.rs `TtEntry::new_empty`. -/
def TtEntry.new_empty : TtEntry :=
  { hash_key := 0, depth := 0, score := 0, flag := .Exact, best_move := nullMove }

/-- tt.rs `TranspositionTable::probe` (index = hash mod capacity; hit only on a
full hash match). The embedded table is its entry list; a zero-capacity table,
where Rust would panic on the modulo, yields the sentinel entry. -/
def tt_probe (entries : List TtEntry) (hash_key : Nat) : Option TtEntry :=
  let index := hash_key % entries.length
  let entry := entries.getD index TtEntry.new_empty
  if entry.hash_key = hash_key then some entry else none

/-- tt.rs `TranspositionTable::store` (depth-preferred replacement). -/
def tt_store (entries : List TtEntry) (hash_key : Nat) (depth score : Int)
    (flag : TtFlag) (best_move : Move) : List TtEntry :=
  let index := hash_key % entries.length
  let entry := entries.getD index TtEntry.new_empty
  if depth ≥ entry.depth then
    entries.set index { hash_key := hash_key, depth := depth, score := score,
                        flag := flag, best_move := best_move }
  else entries

/-- tt.rs `TranspositionTable::clear`: every slot becomes the empty sentinel. -/
def tt_clear (entries : List TtEntry) : List TtEntry :=
  entries.map (fun _ => TtEntry.new_empty)

/-! ### Engine state (engine.rs, config.rs) -/

/-- config.rs `Config`. -/
structure Config where
  bonus_bottom_cannon : Int
  bonus_palace_heart_horse : Int
  king_safety_penalty_per_guard : Int
  dynamic_bonus_attack_per_missing_defender : Int
  mobility_bonus_rook : Int
  mobility_bonus_horse : Int
  mobility_bonus_cannon : Int
  lmr_reduction : Int
deriving DecidableEq, Repr

/-- config.rs `Config::default`. -/
def Config.default : Config :=
  { bonus_bottom_cannon := 80, bonus_palace_heart_horse := 70,
    king_safety_penalty_per_guard := 50,
    dynamic_bonus_attack_per_missing_defender := 15,
    mobility_bonus_rook := 1, mobility_bonus_horse := 3,
    mobility_bonus_cannon := 1, lmr_reduction := 1 }

/-- engine.rs `MAX_PLY`. -/
def MAX_PLY : Nat := 128

/-- engine.rs `MATE_VALUE` (constants.rs). -/
def MATE_VALUE : Int := 10000

/-- engine.rs `Engine`, minus the wall clock: `start_time` is replaced by the
time oracle threaded through the search (see `SearchCtx`). -/
structure EngineSt where
  tt : List TtEntry
  history_table : Nat → Nat → Int
  killer_moves : Nat → Nat → Move
  nodes_searched : Nat
  stop_search : Bool
  time_limit_ms : Option Nat
  config : Config

/-- engine.rs `Engine::clear_killers`. -/
def clear_killers (e : EngineSt) : EngineSt :=
  { e with killer_moves := fun _ _ => nullMove }

/-- engine.rs `Engine::clear_history`. -/
def clear_history (e : EngineSt) : EngineSt :=
  { e with history_table := fun _ _ => 0 }

/-- engine.rs `Engine::get_major_piece_count`: iterates the side's seven
bitboard indices and adds the popcount of those whose
`Piece::from_abs(i + 1)` is a major piece. -/
def get_major_piece_count (b : Board) (player : Player) : Nat :=
  let start_idx := if player = .Red then 0 else 7
  (List.range' start_idx 7).foldl (fun count i =>
    let piece := Piece.from_abs (Int.ofNat (i + 1))
    if piece.is_major then count + popcount (b.piece_bitboards i) else count) 0

/-- engine.rs `ScoredMove`. -/
structure ScoredMove where
  mv : Move
  score : Int
deriving DecidableEq, Repr

/-- engine.rs `Engine::score_move`: TT move, then MVV-LVA captures over a
constant bonus, then killers, then the history heuristic. -/
def score_move (e : EngineSt) (b : Board) (mv : Move) (tt_best_move : Move)
    (ply : Nat) : Int :=
  let TT_BEST_MOVE_SCORE : Int := 1000000
  let KILLER_MOVE_SCORE : Int := 500000
  let CAPTURE_BONUS : Int := 800000
  if mv.from_sq = tt_best_move.from_sq ∧ mv.to_sq = tt_best_move.to_sq then
    TT_BEST_MOVE_SCORE
  else
    let captured_piece := b.board mv.to_sq
    if captured_piece ≠ Piece.Empty then
      let moving_piece := b.board mv.from_sq
      CAPTURE_BONUS + captured_piece.value - moving_piece.value
    else if ply < MAX_PLY ∧ e.killer_moves ply 0 = mv then KILLER_MOVE_SCORE
    else if ply < MAX_PLY ∧ e.killer_moves ply 1 = mv then KILLER_MOVE_SCORE - 10
    else
      let moving_piece := b.board mv.from_sq
      match moving_piece.get_bb_index with
      | some idx => e.history_table idx mv.to_sq
      | none => 0

/-- engine.rs `Engine::store_killer_move`. -/
def store_killer_move (e : EngineSt) (mv : Move) (ply : Nat) : EngineSt :=
  if ply < MAX_PLY then
    { e with killer_moves := fun p s =>
        if p = ply then (if s = 0 then mv else if s = 1 then e.killer_moves ply 0
                         else e.killer_moves p s)
        else e.killer_moves p s }
  else e

/-- Stable insertion of an element into a sorted list: the head of the sorted
tail stays in front exactly when the comparator prefers it strictly or ties
(matching the stability of Rust's `sort_by`). -/
def insertSorted (le : ScoredMove → ScoredMove → Bool) (a : ScoredMove) :
    List ScoredMove → List ScoredMove
  | [] => [a]
  | b :: bs => if le a b then a :: b :: bs else b :: insertSorted le a bs

/-- Stable sort modelling Rust's stable `sort_by` with comparator
`b.score.cmp(&a.score)` (descending by score, ties keep generation order). -/
def sortScored (l : List ScoredMove) : List ScoredMove :=
  l.foldr (insertSorted (fun a b => b.score ≤ a.score)) []

/-- The search context: the parts of the engine that a shallow embedding cannot
carry faithfully, passed as parameters.
* `evalFn` stands for evaluate.rs `evaluate`, whose tapered blend uses `f64`
  arithmetic (floating point is outside the embedding); every result below
  holds for an arbitrary evaluation function.
* `bookFn` stands for `opening_book::query_opening_book`, which reads a file
  at first use and picks a uniformly random entry.
* `timeExpired n` stands for `start_time.elapsed() >= limit` observed at the
  periodic check made when `nodes_searched = n`. -/
structure SearchCtx where
  evalFn : Board → Config → Int
  bookFn : Board → Option Move
  timeExpired : Nat → Bool

/-- engine.rs `Engine::check_time_limit` (returns the flag and the state). -/
def check_time_limit (ctx : SearchCtx) (e : EngineSt) : Bool × EngineSt :=
  let e :=
    if e.nodes_searched % 2048 = 0 then
      match e.time_limit_ms with
      | some _ => if ctx.timeExpired e.nodes_searched then { e with stop_search := true } else e
      | none => e
    else e
  (e.stop_search, e)

/-- engine.rs `Engine::handle_repetition`: the backwards walk indices
`history_ply - 2, history_ply - 4, ...` (every second element of
`(0..history_ply-1).rev()`). -/
def everySecond : List Nat → List Nat
  | [] => []
  | [a] => [a]
  | a :: _ :: rest => a :: everySecond rest

/-- engine.rs `Engine::handle_repetition`. -/
def handle_repetition (b : Board) : Option Int :=
  if b.history_ply ≥ 4 then
    let idxs := everySecond (List.range (b.history_ply - 1)).reverse
    let repetitions := idxs.countP (fun i => b.history i = b.hash_key)
    if repetitions ≥ 2 then some 0 else none
  else none

/-- engine.rs `Engine::probe_tt_table`: returns either an early result or the
tightened (alpha, beta) window and the remembered TT move. -/
def probe_tt_table (e : EngineSt) (hash_key : Nat) (depth alpha beta : Int)
    (tt_best_move : Move) : Sum (Move × Int) (Int × Int × Move) :=
  match tt_probe e.tt hash_key with
  | none => Sum.inr (alpha, beta, tt_best_move)
  | some tt_entry =>
    let tt_best_move := tt_entry.best_move
    if tt_entry.depth ≥ depth then
      let score := tt_entry.score
      match tt_entry.flag with
      | .Exact => Sum.inl (tt_entry.best_move, score)
      | .LowerBound =>
        let alpha := max alpha score
        if alpha ≥ beta then Sum.inl (tt_entry.best_move, score)
        else Sum.inr (alpha, beta, tt_best_move)
      | .UpperBound =>
        let beta := min beta score
        if alpha ≥ beta then Sum.inl (tt_entry.best_move, score)
        else Sum.inr (alpha, beta, tt_best_move)
    else Sum.inr (alpha, beta, tt_best_move)

/-- engine.rs `Engine::store_in_tt_table`. -/
def store_in_tt_table (e : EngineSt) (hash_key : Nat)
    (depth best_score original_alpha beta : Int) (best_move : Move) : EngineSt :=
  let flag :=
    if best_score ≥ beta then TtFlag.LowerBound
    else if best_score > original_alpha then TtFlag.Exact
    else TtFlag.UpperBound
  { e with tt := tt_store e.tt hash_key depth best_score flag best_move }

/-- The quiet-move scan of engine.rs `quiescence_search` (lines 490-499): every
pseudo-legal quiet move is made, kept when it gives check to the new side to
move, and unmade. Returns the capture list extended with those checking quiets,
exactly as the source appends them to `moves`. -/
def quiescence_moves (b : Board) : List Move :=
  let moves := b.generate_capture_moves []
  let quiet_moves := b.generate_quiet_moves []
  quiet_moves.foldl (fun moves mv =>
    let bm := (b.move_piece mv).1
    if is_king_in_check bm bm.player_to_move then movelist_add moves mv else moves)
    moves

/-- The legality gate of the quiescence loop (engine.rs line 513): after making
the move, the mover's king must not be in check for the search to recurse. -/
def quiescence_recurse_gate (b : Board) (mv : Move) : Bool :=
  let bm := (b.move_piece mv).1
  !is_king_in_check bm bm.player_to_move.opponent

/-- The ordered move list of `quiescence_search` together with its legality
filter: exactly the moves the quiescence loop makes and then recurses on
(whenever the stand-pat test lets the loop run at all). -/
def quiescence_recursed_moves (e : EngineSt) (b : Board) (ply : Nat) : List Move :=
  let scored := (quiescence_moves b).map
    (fun mv => ScoredMove.mk mv (score_move e b mv nullMove ply))
  ((sortScored scored).map (·.mv)).filter (quiescence_recurse_gate b)

/-- engine.rs `Engine::quiescence_search`, by fuel on the recursion depth (the
source recursion is bounded by the `ply > 8` cap; fuel 16 more than covers it,
and every theorem below is fuel-generic). -/
def quiescence_search (ctx : SearchCtx) : Nat → Board → Int → Int → Nat →
    EngineSt → Int × Board × EngineSt
  | 0, b, _, _, _, e => (0, b, e)
  | fuel + 1, b, alpha, beta, ply, e =>
    let Q_SEARCH_DEPTH : Int := 8
    if ply ≥ MAX_PLY ∨ (ply : Int) > Q_SEARCH_DEPTH then
      (ctx.evalFn b e.config, b, e)
    else
      let (stop, e) := check_time_limit ctx e
      if stop then (0, b, e)
      else
        let e := { e with nodes_searched := e.nodes_searched + 1 }
        let stand_pat := ctx.evalFn b e.config
        if stand_pat ≥ beta then (beta, b, e)
        else
          let alpha := max alpha stand_pat
          let moves := quiescence_moves b
          let scored := moves.map
            (fun mv => ScoredMove.mk mv (score_move e b mv nullMove ply))
          let sorted := sortScored scored
          let result := sorted.foldl (fun st sm =>
            let (alpha, b, e, done) := st
            if done then st
            else
              let (bmoved, captured) := b.move_piece sm.mv
              if !is_king_in_check bmoved bmoved.player_to_move.opponent then
                let (s, bmoved, e) :=
                  quiescence_search ctx fuel bmoved (-beta) (-alpha) (ply + 1) e
                let score := -s
                let b := bmoved.unmove_piece sm.mv captured
                if score ≥ beta then (alpha, b, e, true)
                else if score > alpha then (score, b, e, false)
                else (alpha, b, e, false)
              else
                (alpha, bmoved.unmove_piece sm.mv captured, e, false))
            (alpha, b, e, false)
          let (alpha, b, e, done) := result
          if done then (beta, b, e) else (alpha, b, e)

/-- engine.rs `Engine::perform_null_move_pruning`, with the negamax recursion
passed in as `recurse` (instantiated with the next-smaller fuel). -/
def perform_null_move_pruning
    (recurse : Board → Int → Int → Int → Nat → EngineSt → (Move × Int) × Board × EngineSt)
    (b : Board) (depth beta : Int) (is_in_check : Bool) (ply : Nat) (e : EngineSt) :
    Option (Move × Int) × Board × EngineSt :=
  if !is_in_check ∧ depth ≥ 3 ∧ get_major_piece_count b b.player_to_move > 1 then
    let r : Int := if depth > 6 then 3 else 2
    let b := { b with player_to_move := b.player_to_move.opponent,
                      hash_key := b.hash_key ^^^ ZOBRIST_PLAYER }
    let b := { b with history_ply := b.history_ply + 1 }
    let b := { b with history := Function.update b.history b.history_ply b.hash_key }
    let (res, b, e) := recurse b (depth - 1 - r) (-beta) (-beta + 1) (ply + 1) e
    let score := -res.2
    let b := { b with history_ply := b.history_ply - 1 }
    let b := { b with player_to_move := b.player_to_move.opponent,
                      hash_key := b.hash_key ^^^ ZOBRIST_PLAYER }
    if score ≥ beta then (some (nullMove, beta), b, e)
    else (none, b, e)
  else (none, b, e)

/-- The per-move accumulator of the negamax move loop. -/
structure NegamaxLoopSt where
  alpha : Int
  best_score : Int
  best_move : Move
  legal_moves_found : Nat
  board : Board
  eng : EngineSt
  done : Bool

/-- engine.rs `Engine::negamax`, by fuel on the recursion (the source recursion
terminates only through the game tree; all theorems below are fuel-generic).
Returns ((best move, score), board, engine state). -/
def negamax (ctx : SearchCtx) : Nat → Board → Int → Int → Int → Nat →
    EngineSt → (Move × Int) × Board × EngineSt
  | 0, b, _, _, _, _, e => ((nullMove, 0), b, e)
  | fuel + 1, b, depth, alpha0, beta0, ply, e =>
    let (stop, e) := check_time_limit ctx e
    if stop then ((nullMove, 0), b, e)
    else
      let e := { e with nodes_searched := e.nodes_searched + 1 }
      match if ply > 0 then handle_repetition b else none with
      | some draw_score => ((nullMove, draw_score), b, e)
      | none =>
        let original_alpha := alpha0
        match probe_tt_table e b.hash_key depth alpha0 beta0 nullMove with
        | Sum.inl tt_result => (tt_result, b, e)
        | Sum.inr (alpha, beta, tt_best_move) =>
          if depth ≤ 0 then
            let (score, b, e) := quiescence_search ctx fuel b alpha beta ply e
            ((nullMove, score), b, e)
          else
            let is_in_check := is_king_in_check b b.player_to_move
            let current_depth := if is_in_check then depth + 1 else depth
            let (pruned, b, e) :=
              perform_null_move_pruning (negamax ctx fuel) b current_depth beta
                is_in_check ply e
            match pruned with
            | some res => (res, b, e)
            | none =>
              let moves := b.generate_quiet_moves (b.generate_capture_moves [])
              let scored := moves.map
                (fun mv => ScoredMove.mk mv (score_move e b mv tt_best_move ply))
              let sorted := sortScored scored
              let st0 : NegamaxLoopSt :=
                { alpha := alpha, best_score := -MATE_VALUE, best_move := nullMove,
                  legal_moves_found := 0, board := b, eng := e, done := false }
              let stF := sorted.foldl (fun st sm =>
                if st.done then st
                else
                  let (bmoved, captured) := st.board.move_piece sm.mv
                  if is_king_in_check bmoved bmoved.player_to_move.opponent then
                    { st with board := bmoved.unmove_piece sm.mv captured }
                  else
                    let legal_moves_found := st.legal_moves_found + 1
                    let (score, bmoved, e) :=
                      if legal_moves_found = 1 then
                        let (res, bmoved, e) :=
                          negamax ctx fuel bmoved (current_depth - 1) (-beta)
                            (-st.alpha) (ply + 1) st.eng
                        (-res.2, bmoved, e)
                      else
                        let reduction : Int :=
                          if current_depth ≥ 3 ∧ legal_moves_found > 3 ∧
                             ¬is_in_check ∧ ¬sm.mv.is_capture then 1 else 0
                        let (res, bmoved, e) :=
                          negamax ctx fuel bmoved (current_depth - 1 - reduction)
                            (-st.alpha - 1) (-st.alpha) (ply + 1) st.eng
                        let score := -res.2
                        if score > st.alpha ∧ reduction > 0 then
                          let (res, bmoved, e) :=
                            negamax ctx fuel bmoved (current_depth - 1) (-beta)
                              (-st.alpha) (ply + 1) e
                          (-res.2, bmoved, e)
                        else (score, bmoved, e)
                    let board := bmoved.unmove_piece sm.mv captured
                    let (best_score, best_move) :=
                      if score > st.best_score then (score, sm.mv)
                      else (st.best_score, st.best_move)
                    let alpha := if best_score > st.alpha then best_score else st.alpha
                    if alpha ≥ beta then
                      let e :=
                        if !sm.mv.is_capture then
                          let e := store_killer_move e sm.mv ply
                          let moving_piece := board.board sm.mv.from_sq
                          match moving_piece.get_bb_index with
                          | some idx =>
                            { e with history_table := fun i t =>
                                if i = idx ∧ t = sm.mv.to_sq then
                                  e.history_table i t + depth * depth
                                else e.history_table i t }
                          | none => e
                        else e
                      { alpha := alpha, best_score := best_score, best_move := best_move,
                        legal_moves_found := legal_moves_found, board := board,
                        eng := e, done := true }
                    else
                      { alpha := alpha, best_score := best_score, best_move := best_move,
                        legal_moves_found := legal_moves_found, board := board,
                        eng := e, done := false }) st0
              if stF.legal_moves_found = 0 then
                ((nullMove, if is_in_check then -MATE_VALUE + (ply : Int) else 0),
                 stF.board, stF.eng)
              else
                let e := store_in_tt_table stF.eng b.hash_key depth stF.best_score
                  original_alpha beta stF.best_move
                ((stF.best_move, stF.best_score), stF.board, e)

/-- The root iterative-deepening loop state of engine.rs `Engine::search`. -/
structure RootLoopSt where
  best_move_overall : Move
  best_score_overall : Int
  searched_depth : Int
  board : Board
  eng : EngineSt
  early : Option (Move × Int × Int)
  done : Bool

/-- The reset prelude of engine.rs `Engine::search` (lines 90-96): clears the
history table, the killer table and the transposition table, and resets the
node counter, the stop flag and the time limit. -/
def search_reset (e : EngineSt) (time_limit_ms : Option Nat) : EngineSt :=
  let e := clear_history e
  let e := clear_killers e
  let e := { e with tt := tt_clear e.tt }
  { e with nodes_searched := 0, stop_search := false, time_limit_ms := time_limit_ms }

/-- engine.rs `Engine::search`: runs the reset prelude, then iterates depth
1..max_depth, querying the opening book each iteration and running `negamax`
with the full window, with the source's early-exit conditions. Returns
((best move, best score, searched depth), board, engine state). -/
def engine_search (ctx : SearchCtx) (fuel : Nat) (e : EngineSt) (b : Board)
    (max_depth : Int) (time_limit_ms : Option Nat) :
    (Move × Int × Int) × Board × EngineSt :=
  let e := search_reset e time_limit_ms
  let depths := (List.range max_depth.toNat).map (fun i => (i : Int) + 1)
  let st0 : RootLoopSt :=
    { best_move_overall := nullMove, best_score_overall := -MATE_VALUE,
      searched_depth := 1, board := b, eng := e, early := none, done := false }
  let stF := depths.foldl (fun st current_depth =>
    if st.done then st
    else
      match ctx.bookFn st.board with
      | some book_move =>
        { st with early := some (book_move, 0, current_depth), done := true }
      | none =>
        let (res, board, e) :=
          negamax ctx fuel st.board current_depth (-MATE_VALUE) MATE_VALUE 0 st.eng
        if e.stop_search then { st with board := board, eng := e, done := true }
        else
          let st :=
            if res.1.from_sq ≠ 0 ∨ res.1.to_sq ≠ 0 then
              { st with best_move_overall := res.1, best_score_overall := res.2,
                        searched_depth := current_depth, board := board, eng := e }
            else { st with board := board, eng := e }
          if st.best_score_overall.natAbs > (MATE_VALUE - 100).toNat then
            { st with done := true }
          else st) st0
  match stF.early with
  | some r => (r, stF.board, stF.eng)
  | none => ((stF.best_move_overall, stF.best_score_overall, stF.searched_depth),
             stF.board, stF.eng)

/-! ### Specification-side definitions -/

/-- Xor of the Zobrist keys of a 90-square piece assignment. -/
def hash_fold (f : Nat → Piece) : Nat :=
  (List.range 90).foldl (fun acc s => acc ^^^ zobristKeyAt (f s) s) 0

/-- The from-scratch Zobrist recomputation of spec section 4.2 / claim C3: the
xor of the (piece, rank, file) keys over every square (`zobristKeyAt` is 0 on
Empty, so only non-empty squares contribute). -/
def board_hash_pieces (b : Board) : Nat := hash_fold b.board

/-- Spec invariant 4: the stored hash equals the from-scratch recomputation,
xored with the side-to-move key exactly when Black is to move. -/
def hash_invariant (b : Board) : Prop :=
  b.hash_key = board_hash_pieces b ^^^
    (if b.player_to_move = Player.Black then ZOBRIST_PLAYER else 0)

/-- Well-formedness of a FEN layout (spec section 6): ten ranks separated by
slashes, each rank's digits (1..9) and piece letters covering exactly 9 files. -/
def wf_layout : List Char → Nat → Nat → Bool
  | [], rank, file => rank = 9 && file = 9
  | ch :: rest, rank, file =>
    if ch = '/' then file = 9 && rank < 9 && wf_layout rest (rank + 1) 0
    else if ch.isDigit then
      let d := ch.toNat - 48
      1 ≤ d && file + d ≤ 9 && wf_layout rest rank (file + d)
    else
      (Piece.from_fen_char ch).isSome && file < 9 && wf_layout rest rank (file + 1)

/-- Well-formed position string (spec section 6): a well-formed layout token
followed by a side token `w` or `b`. -/
def wf_fen (fen : String) : Bool :=
  match splitWs fen.data with
  | layout :: side :: _ => wf_layout layout 0 0 && (side = ['w'] || side = ['b'])
  | _ => false

/-- A board mutation step: a `move_piece` call or an `unmove_piece` call. -/
inductive Step where
  | mk_move (mv : Move)
  | un_move (mv : Move) (captured : Piece)
deriving DecidableEq, Repr

/-- Applies one step to a board. -/
def apply_step (b : Board) (s : Step) : Board :=
  match s with
  | .mk_move mv => (b.move_piece mv).1
  | .un_move mv captured => b.unmove_piece mv captured

/-- Applies a step sequence left to right. -/
def apply_steps (b : Board) (l : List Step) : Board := l.foldl apply_step b

/-- Validity of one step on a given board: the facts that hold for the
make/unmake calls issued on legal moves (a `move_piece` call moves an actual
piece to a different square; an `unmove_piece` call undoes exactly such a
move, so its to-square is occupied, its from-square empty, and the passed
captured piece is what the corresponding make returned). On invalid steps the
Rust code would panic or corrupt the board. -/
def valid_step (b : Board) (s : Step) : Prop :=
  match s with
  | .mk_move mv =>
    mv.from_sq ≠ mv.to_sq ∧ mv.from_sq < 90 ∧ mv.to_sq < 90 ∧
    b.board mv.from_sq ≠ Piece.Empty
  | .un_move mv _ =>
    mv.from_sq ≠ mv.to_sq ∧ mv.from_sq < 90 ∧ mv.to_sq < 90 ∧
    b.board mv.to_sq ≠ Piece.Empty ∧ b.board mv.from_sq = Piece.Empty

instance (b : Board) (s : Step) : Decidable (valid_step b s) := by
  cases s <;> simp [valid_step] <;> infer_instance

/-- A step sequence each of whose steps is valid on the board it is applied to. -/
def valid_trace : Board → List Step → Prop
  | _, [] => True
  | b, s :: rest => valid_step b s ∧ valid_trace (apply_step b s) rest

instance instValidTraceDec : (b : Board) → (l : List Step) → Decidable (valid_trace b l)
  | _, [] => .isTrue trivial
  | b, s :: rest =>
    have : Decidable (valid_trace (apply_step b s) rest) := instValidTraceDec _ _
    instDecidableAnd

/-- Board/bitboard agreement on the colour bitboards (spec invariant 1,
restricted to what legal-move reasoning needs): a square's bit is set in a
colour bitboard exactly when the square holds a piece of that colour. -/
def colors_consistent (b : Board) : Prop :=
  ∀ s, s < 90 →
    (((b.color_bitboards 0).testBit s ↔ (b.board s).player = some Player.Red) ∧
     ((b.color_bitboards 1).testBit s ↔ (b.board s).player = some Player.Black))

instance (b : Board) : Decidable (colors_consistent b) := by
  unfold colors_consistent; infer_instance

/-- Geometric nearness along a ray (claim C7): for East/South rays square
indices grow with distance from the origin, for North/West rays they shrink,
so `u` lies strictly nearer the origin than `t` along direction `d` iff the
corresponding index comparison holds. -/
def nearer (d : Dir) (u t : Nat) : Prop :=
  match d with
  | .North | .West => t < u
  | .East | .South => u < t

instance (d : Dir) (u t : Nat) : Decidable (nearer d u t) := by
  cases d <;> simp [nearer] <;> infer_instance

/-- Claim C7's per-ray cannon condition for a target square `t` on the ray of
direction `d` from `sq`: either `t` and every ray square nearer than `t` are
empty (the quiet segment: the entire ray when no square is occupied, otherwise
the squares strictly between `sq` and the nearest occupied square, which in
particular excludes that screen square itself), or `t` is occupied and exactly
one nearer ray square is occupied (the capture target just beyond the screen -
and no square beyond it, which would see two or more nearer occupied squares). -/
def cannon_ray_condition (d : Dir) (sq occupied t : Nat) : Prop :=
  (occupied.testBit t = false ∧
    ∀ u ∈ ray_squares d sq, nearer d u t → occupied.testBit u = false) ∨
  (occupied.testBit t = true ∧
    ((ray_squares d sq).filter
      (fun u => decide (nearer d u t) && occupied.testBit u)).length = 1)

instance (d : Dir) (sq occupied t : Nat) : Decidable (cannon_ray_condition d sq occupied t) := by
  unfold cannon_ray_condition
  have : Decidable (∀ u ∈ ray_squares d sq, nearer d u t → occupied.testBit u = false) :=
    List.decidableBAll _ _
  exact instDecidableOr

/-! ### Concrete boards used by individual claims -/

/-- C4's failing input: Black to move with a horse on square 0 (rank 0, file 0)
and kings on e9 / e0; the board after `from_fen`. -/
def c4_board : Board := (from_fen "n3k4/9/9/9/9/9/9/9/9/4K4 b - - 0 1").getD Board.new

/-- C4's board after the legal Black horse move 0 -> 19. -/
def c4_after : Board := (c4_board.move_piece (Move.new 0 19 none)).1

/-- C5 / C2 test engine: a fresh engine state with an empty table list. -/
def fresh_engine : EngineSt :=
  { tt := [], history_table := fun _ _ => 0, killer_moves := fun _ _ => nullMove,
    nodes_searched := 0, stop_search := false, time_limit_ms := none,
    config := Config.default }

/-- C5's input: Red to move, rook a4, kings e9 / d0 - the rook has quiet
checking moves. -/
def c5_board : Board := (from_fen "4k4/9/9/9/9/R8/9/9/9/3K5 w - - 0 1").getD Board.new

/-- C6's failing input: the standard opening position with Black to move. -/
def c6_board : Board :=
  (from_fen "rnbakabnr/9/1c5c1/p1p1p1p1p/9/9/P1P1P1P1P/1C5C1/9/RNBAKABNR b - - 0 1").getD
    Board.new

/-- C9's input: a crossed-river Red pawn on square 40 attacking a Black rook on
square 31 and a Black pawn on square 41. -/
def c9_board : Board := (from_fen "3k5/9/9/4r4/4Pp3/9/9/9/9/3K5 w - - 0 1").getD Board.new

/-- C2's witness board: bare kings facing each other on file d. -/
def c2_board : Board := (from_fen "3k5/9/9/9/9/9/9/9/9/3K5 w - - 0 1").getD Board.new

/-- C1/C3 witness board: the standard opening position. -/
def start_board : Board :=
  (from_fen "rnbakabnr/9/1c5c1/p1p1p1p1p/9/9/P1P1P1P1P/1C5C1/9/RNBAKABNR w - - 0 1").getD
    Board.new

/-- C10: a deterministic search context (any one works; the theorem is
context-generic). -/
def c10_ctx : SearchCtx :=
  { evalFn := fun _ _ => 0, bookFn := fun _ => none, timeExpired := fun _ => false }

/-- C10: engine state number one, with one empty TT slot. -/
def c10_engine_a : EngineSt := { fresh_engine with tt := [TtEntry.new_empty] }

/-- C10: engine state number two, differing from the first in the TT contents,
the history table, the killer table, the node counter, the stop flag and the
time limit. -/
def c10_engine_b : EngineSt :=
  { fresh_engine with
    tt := [{ hash_key := 5, depth := 3, score := 7, flag := .LowerBound,
             best_move := Move.new 1 2 none }],
    history_table := fun _ _ => 9,
    killer_moves := fun _ _ => Move.new 3 4 none,
    nodes_searched := 11, stop_search := true, time_limit_ms := some 1 }

/-! ### Direction-indexed helpers for the sliding-move analysis -/

/-- The nearest-blocker index the sliding generator picks for direction `d`. -/
def dirPick (d : Dir) (n : Nat) : Nat :=
  if d = Dir.North || d = Dir.West then msb_index n else trailing_zeros n

/-- The single-direction contribution of the cannon branch of
`get_sliding_piece_moves` (accumulator factored out). -/
def cannonDirContrib (d : Dir) (sq occupied : Nat) : Nat :=
  let ray := rays d sq
  let blockers := occupied &&& ray
  if blockers ≠ 0 then
    let screen := dirPick d blockers
    let base := (ray ^^^ rays d screen) ^^^ bbMask screen
    let remaining_blockers := blockers ^^^ bbMask screen
    if remaining_blockers ≠ 0 then base ||| bbMask (dirPick d remaining_blockers)
    else base
  else ray

/-! ### Helper lemmas -/

theorem xor_cancel_right (a b : Nat) : a ^^^ b ^^^ b = a := by
  rw [Nat.xor_assoc, Nat.xor_self, Nat.xor_zero]

theorem tt_clear_replicate (l : List TtEntry) :
    tt_clear l = List.replicate l.length TtEntry.new_empty := by
  induction l with
  | nil => rfl
  | cons a l ih => simp [tt_clear, List.replicate] at ih ⊢

/-! ### Claim theorems -/

/-- Claim C6, code bug: `get_major_piece_count` evaluates to 0 for Black on
every board, because the Black loop feeds the values 8..14 into
`Piece::from_abs`, whose match has no arm for them and falls through to Empty,
which is not major. Hence the null-move gate "more than one major piece" can
never hold for Black, while for Red it counts the real majors - on the opening
position with Black to move, Black in fact has six major pieces on the board. -/
theorem c6_black_major_count_always_zero :
    (∀ b : Board, get_major_piece_count b Player.Black = 0) ∧
    get_major_piece_count c6_board Player.Black = 0 ∧
    get_major_piece_count c6_board Player.Red = 6 ∧
    popcount (c6_board.piece_bitboards (bbIndexOf Piece.BRook)) +
      popcount (c6_board.piece_bitboards (bbIndexOf Piece.BHorse)) +
      popcount (c6_board.piece_bitboards (bbIndexOf Piece.BCannon)) = 6 :=
  ⟨fun _ => rfl, by decide, by decide, by decide⟩

/-- Claim C8, counterexample: on the empty (malformed) position string,
`from_fen` leaves by panic - `unwrap` of a missing layout token, modelled here
by `none` - refuting "does not panic or otherwise leave by exceptional control
flow; parse failure is signalled by an explicit return value". -/
theorem c8_counterexample : from_fen "" = none := rfl

/-- Claim C8, amended: `Board::from_fen` panics (modelled by `none`) on each of
the claim's malformed inputs - the empty string, a string missing the
side-to-move field, and a layout containing a letter that is no piece code -
instead of signalling parse failure through its return value; it never returns
a half-constructed board on these inputs, because it does not return at all. -/
theorem c8_from_fen_panics_on_malformed :
    from_fen "" = none ∧
    from_fen "9/9/9/9/9/9/9/9/9/9" = none ∧
    from_fen "x8/9/9/9/9/9/9/9/9/9 w - - 0 1" = none :=
  ⟨rfl, rfl, rfl⟩

/-- Claim C9, counterexample: two captures by the same Red pawn - of a Black
rook (value 900) and of a Black pawn (value 100) - receive ordering scores
800800 and 800000, a difference of 800; under the claimed formula
"bonus + 1000 x victim - aggressor" the difference would be 800000 regardless
of the bonus constant, so the claim fails at this input. -/
theorem c9_counterexample :
    score_move fresh_engine c9_board (Move.new 40 31 (some Piece.BRook)) nullMove 0 = 800800 ∧
    score_move fresh_engine c9_board (Move.new 40 41 (some Piece.BPawn)) nullMove 0 = 800000 ∧
    1000 * Piece.BRook.value - Piece.RPawn.value
      - (1000 * Piece.BPawn.value - Piece.RPawn.value) = 800000 ∧
    ((800800 : Int) - 800000 ≠ 800000) :=
  ⟨by decide, by decide, by decide, by decide⟩

/-- Claim C9, amended: for every capture move (destination holding a non-empty
piece) that does not match the remembered TT move, `score_move` returns the
constant capture bonus 800000 plus the victim's `PIECE_VALUES` value minus the
aggressor's value - the victim value enters with coefficient 1, not 1000. -/
theorem c9_capture_score (e : EngineSt) (b : Board) (mv tt_best_move : Move) (ply : Nat)
    (hcap : b.board mv.to_sq ≠ Piece.Empty)
    (htt : ¬(mv.from_sq = tt_best_move.from_sq ∧ mv.to_sq = tt_best_move.to_sq)) :
    score_move e b mv tt_best_move ply =
      800000 + (b.board mv.to_sq).value - (b.board mv.from_sq).value := by
  unfold score_move
  rw [if_neg htt, if_pos hcap]

/-- Witness for C9's amended theorem at the concrete pawn-takes-rook capture. -/
theorem c9_capture_score_witness :
    score_move fresh_engine c9_board (Move.new 40 31 (some Piece.BRook)) nullMove 0 =
      800000 + (c9_board.board (Move.new 40 31 (some Piece.BRook)).to_sq).value
        - (c9_board.board (Move.new 40 31 (some Piece.BRook)).from_sq).value :=
  c9_capture_score fresh_engine c9_board (Move.new 40 31 (some Piece.BRook)) nullMove 0
    (by decide) (by decide)

/-- Claim C4, code bug: starting from `from_fen` on a well-formed position and
playing the legal Black horse move 0 -> 19, the incrementally maintained PST
accumulators diverge from the from-scratch recomputation `calculate_pst_scores`
(the incremental `get_pst_scores` looks Black pieces up at mirrored coordinates
(9 - rank, 8 - file) while the from-scratch walk uses (rank, file); the horse
table is not symmetric under that mirror). The material accumulator still
agrees; both PST accumulators are off by 4. -/
theorem c4_accumulator_divergence :
    c4_after.mg_pst_score = -94 ∧ (calculate_pst_scores c4_after).1 = -98 ∧
    c4_after.mg_pst_score ≠ (calculate_pst_scores c4_after).1 ∧
    c4_after.eg_pst_score ≠ (calculate_pst_scores c4_after).2 ∧
    c4_after.material_score = calculate_material_score c4_after :=
  ⟨by decide, by decide, by decide, by decide, by decide⟩

/-- Claim C10: `Engine::search` resets the transposition table to empty
sentinel entries, the history table to zeros and the killer table to null
moves before its first depth iteration, so two engine states that differ only
in those three stores (and in the equally-reset node counter, stop flag and
time limit) produce identical search results on every position, depth, time
limit, evaluation function, opening book and time oracle - no entry stored by
a previous search call can influence the returned move. -/
theorem c10_search_independent_of_previous_tables
    (ctx : SearchCtx) (fuel : Nat) (b : Board) (max_depth : Int)
    (tl : Option Nat) (e1 e2 : EngineSt)
    (hcfg : e1.config = e2.config) (hlen : e1.tt.length = e2.tt.length) :
    engine_search ctx fuel e1 b max_depth tl = engine_search ctx fuel e2 b max_depth tl := by
  have hreset : search_reset e1 tl = search_reset e2 tl := by
    simp only [search_reset, clear_history, clear_killers]
    rw [hcfg]
    congr 1
    rw [tt_clear_replicate, tt_clear_replicate, hlen]
  unfold engine_search
  rw [hreset]

/-- Witness for C10 at concrete engine states differing in all three stores. -/
theorem c10_search_independent_witness :
    engine_search c10_ctx 1 c10_engine_a c2_board 0 none =
      engine_search c10_ctx 1 c10_engine_b c2_board 0 none :=
  c10_search_independent_of_previous_tables c10_ctx 1 c2_board 0 none
    c10_engine_a c10_engine_b rfl rfl

theorem xor_left_comm (a b c : Nat) : a ^^^ (b ^^^ c) = b ^^^ (a ^^^ c) := by
  rw [← Nat.xor_assoc, Nat.xor_comm a b, Nat.xor_assoc]

theorem xor_cancel_left (a b : Nat) : a ^^^ (a ^^^ b) = b := by
  rw [← Nat.xor_assoc, Nat.xor_self, Nat.zero_xor]

theorem bb_idx_red_lt (p : Piece) (h : p.player = some Player.Red) : bbIndexOf p < 7 := by
  cases p <;> simp_all [Piece.player, Piece.toInt, bbIndexOf, Piece.get_bb_index]

theorem bb_idx_black_ge (p : Piece) (h : p.player = some Player.Black) : 7 ≤ bbIndexOf p := by
  cases p <;> simp_all [Piece.player, Piece.toInt, bbIndexOf, Piece.get_bb_index]

theorem bb_index_ne_of_opposite (p q : Piece) (pl : Player)
    (hp : p.player = some pl) (hq : q.player = some pl.opponent) :
    bbIndexOf p ≠ bbIndexOf q := by
  cases pl
  · have h1 := bb_idx_red_lt p hp
    have h2 := bb_idx_black_ge q hq
    omega
  · have h1 := bb_idx_black_ge p hp
    have h2 := bb_idx_red_lt q hq
    omega

theorem color_idx_eq (p : Piece) (pl : Player) (hp : p.player = some pl) :
    colorIdxOf p = pl.get_bb_idx := by
  simp [colorIdxOf, hp]

theorem color_idx_ne (pl : Player) : pl.get_bb_idx ≠ pl.opponent.get_bb_idx := by
  cases pl <;> decide

theorem restore_bit (x : Nat) (t : Nat) (hx : x < 2 ^ 128) (ht : t < 128)
    (hbit : x.testBit t = true) : (x &&& bbNot (bbMask t)) ||| bbMask t = x := by
  apply Nat.eq_of_testBit_eq
  intro i
  simp only [Nat.testBit_or, Nat.testBit_and, bbNot, bbAll, bbMask, Nat.testBit_xor,
    Nat.testBit_two_pow_sub_one, Nat.testBit_two_pow]
  by_cases hit : t = i
  · subst hit; simp [hbit, ht]
  · by_cases hi : i < 128
    · simp [hit, hi]
    · have hx0 : x.testBit i = false := by
        apply Nat.testBit_lt_two_pow
        calc x < 2 ^ 128 := hx
        _ ≤ 2 ^ i := Nat.pow_le_pow_right (by omega) (by omega)
      simp [hit, hi, hx0]

theorem player_opponent_opponent (pl : Player) : pl.opponent.opponent = pl := by
  cases pl <;> rfl

theorem move_sq_lt_128 (mv : Move) : mv.to_sq < 128 ∧ mv.from_sq < 128 := by
  constructor
  · have h : mv.val >>> 7 &&& 0x7F ≤ 0x7F := Nat.and_le_right
    simp only [Move.to_sq]; omega
  · have h : mv.val &&& 0x7F ≤ 0x7F := Nat.and_le_right
    simp only [Move.from_sq]; omega

theorem bb_idx_lt_14 (p : Piece) (h : p ≠ Piece.Empty) : bbIndexOf p < 14 := by
  cases p <;> simp_all [bbIndexOf, Piece.get_bb_index, Piece.toInt] <;> decide

theorem player_idx_lt_2 (pl : Player) : pl.get_bb_idx < 2 := by
  cases pl <;> decide

/-- Claim C1: for a legal move (distinct squares, a mover's piece on the from
square, an empty or opposing to square whose occupant is recorded in its piece
and colour bitboards - the facts every legal move of a reachable, consistent
board provides), `move_piece` followed by `unmove_piece` with the returned
captured piece restores the hash, all 14 piece bitboards, both colour
bitboards, the 90-square array, the side to move, history_ply and the three
evaluation accumulators exactly. -/
theorem c1_move_unmove_roundtrip (b : Board) (mv : Move)
    (hne : mv.from_sq ≠ mv.to_sq)
    (hmpl : (b.board mv.from_sq).player = some b.player_to_move)
    (hcap : b.board mv.to_sq = Piece.Empty ∨
            (b.board mv.to_sq).player = some b.player_to_move.opponent)
    (hpbb : ∀ i, i < 14 → b.piece_bitboards i < 2 ^ 128)
    (hcbb : ∀ i, i < 2 → b.color_bitboards i < 2 ^ 128)
    (hpbit : b.board mv.to_sq ≠ Piece.Empty →
      (b.piece_bitboards (bbIndexOf (b.board mv.to_sq))).testBit mv.to_sq = true)
    (hcbit : b.board mv.to_sq ≠ Piece.Empty →
      (b.color_bitboards (colorIdxOf (b.board mv.to_sq))).testBit mv.to_sq = true) :
    (b.move_piece mv).2 = b.board mv.to_sq ∧
    ((b.move_piece mv).1.unmove_piece mv (b.move_piece mv).2).hash_key = b.hash_key ∧
    (∀ i, ((b.move_piece mv).1.unmove_piece mv (b.move_piece mv).2).piece_bitboards i
      = b.piece_bitboards i) ∧
    (∀ i, ((b.move_piece mv).1.unmove_piece mv (b.move_piece mv).2).color_bitboards i
      = b.color_bitboards i) ∧
    (∀ s, ((b.move_piece mv).1.unmove_piece mv (b.move_piece mv).2).board s = b.board s) ∧
    ((b.move_piece mv).1.unmove_piece mv (b.move_piece mv).2).player_to_move
      = b.player_to_move ∧
    ((b.move_piece mv).1.unmove_piece mv (b.move_piece mv).2).history_ply = b.history_ply ∧
    ((b.move_piece mv).1.unmove_piece mv (b.move_piece mv).2).material_score
      = b.material_score ∧
    ((b.move_piece mv).1.unmove_piece mv (b.move_piece mv).2).mg_pst_score
      = b.mg_pst_score ∧
    ((b.move_piece mv).1.unmove_piece mv (b.move_piece mv).2).eg_pst_score
      = b.eg_pst_score := by
  have ht128 : mv.to_sq < 128 := (move_sq_lt_128 mv).1
  refine ⟨rfl, ?_, ?_, ?_, ?_, ?_, ?_, ?_, ?_, ?_⟩
  ·
    by_cases hc : b.board mv.to_sq = Piece.Empty
    · simp [Board.move_piece, Board.unmove_piece, Board.update_scores_for_move,
        Board.update_board_and_bitboards_for_move, Board.update_hash_for_move,
        Board.update_scores_for_unmove, Board.update_board_and_bitboards_for_unmove,
        Board.update_hash_for_unmove, Function.update_same,
        Function.update_noteq (Ne.symm hne), Function.update_apply, hc]
      simp [Nat.xor_assoc, Nat.xor_comm, xor_left_comm, Nat.xor_self, Nat.xor_zero,
        Nat.zero_xor, xor_cancel_left]
    · have hcapP : (b.board mv.to_sq).player = some b.player_to_move.opponent :=
        hcap.resolve_left hc
      by_cases hb : (b.board mv.to_sq).player = some Player.Black
      · simp [Board.move_piece, Board.unmove_piece, Board.update_scores_for_move,
        Board.update_board_and_bitboards_for_move, Board.update_hash_for_move,
        Board.update_scores_for_unmove, Board.update_board_and_bitboards_for_unmove,
        Board.update_hash_for_unmove, Function.update_same,
        Function.update_noteq (Ne.symm hne), Function.update_apply, hc, hb]
        simp [Nat.xor_assoc, Nat.xor_comm, xor_left_comm, Nat.xor_self, Nat.xor_zero,
          Nat.zero_xor, xor_cancel_left]
      · simp [Board.move_piece, Board.unmove_piece, Board.update_scores_for_move,
        Board.update_board_and_bitboards_for_move, Board.update_hash_for_move,
        Board.update_scores_for_unmove, Board.update_board_and_bitboards_for_unmove,
        Board.update_hash_for_unmove, Function.update_same,
        Function.update_noteq (Ne.symm hne), Function.update_apply, hc, hb]
        simp [Nat.xor_assoc, Nat.xor_comm, xor_left_comm, Nat.xor_self, Nat.xor_zero,
          Nat.zero_xor, xor_cancel_left]
  · intro i
    by_cases hc : b.board mv.to_sq = Piece.Empty
    · simp [Board.move_piece, Board.unmove_piece, Board.update_scores_for_move,
        Board.update_board_and_bitboards_for_move, Board.update_hash_for_move,
        Board.update_scores_for_unmove, Board.update_board_and_bitboards_for_unmove,
        Board.update_hash_for_unmove, Function.update_same,
        Function.update_noteq (Ne.symm hne), Function.update_apply, hc]
      by_cases hA : i = bbIndexOf (b.board mv.from_sq) <;> simp [hA, xor_cancel_right]
    · have hcapP : (b.board mv.to_sq).player = some b.player_to_move.opponent :=
        hcap.resolve_left hc
      by_cases hb : (b.board mv.to_sq).player = some Player.Black
      · have hAC : bbIndexOf (b.board mv.from_sq) ≠ bbIndexOf (b.board mv.to_sq) :=
          bb_index_ne_of_opposite _ _ _ hmpl hcapP
        simp [Board.move_piece, Board.unmove_piece, Board.update_scores_for_move,
        Board.update_board_and_bitboards_for_move, Board.update_hash_for_move,
        Board.update_scores_for_unmove, Board.update_board_and_bitboards_for_unmove,
        Board.update_hash_for_unmove, Function.update_same,
        Function.update_noteq (Ne.symm hne), Function.update_apply, hc, hb, hAC, Ne.symm hAC]
        by_cases hiC : i = bbIndexOf (b.board mv.to_sq)
        · simp [hiC, hAC, Ne.symm hAC, restore_bit _ _ (hpbb _ (bb_idx_lt_14 _ hc)) ht128 (hpbit hc)]
        · by_cases hiA : i = bbIndexOf (b.board mv.from_sq) <;>
            simp [hiC, hiA, hAC, Ne.symm hAC, xor_cancel_right]
      · have hAC : bbIndexOf (b.board mv.from_sq) ≠ bbIndexOf (b.board mv.to_sq) :=
          bb_index_ne_of_opposite _ _ _ hmpl hcapP
        simp [Board.move_piece, Board.unmove_piece, Board.update_scores_for_move,
        Board.update_board_and_bitboards_for_move, Board.update_hash_for_move,
        Board.update_scores_for_unmove, Board.update_board_and_bitboards_for_unmove,
        Board.update_hash_for_unmove, Function.update_same,
        Function.update_noteq (Ne.symm hne), Function.update_apply, hc, hb, hAC, Ne.symm hAC]
        by_cases hiC : i = bbIndexOf (b.board mv.to_sq)
        · simp [hiC, hAC, Ne.symm hAC, restore_bit _ _ (hpbb _ (bb_idx_lt_14 _ hc)) ht128 (hpbit hc)]
        · by_cases hiA : i = bbIndexOf (b.board mv.from_sq) <;>
            simp [hiC, hiA, hAC, Ne.symm hAC, xor_cancel_right]
  · intro i
    have hmc : colorIdxOf (b.board mv.from_sq) = b.player_to_move.get_bb_idx :=
      color_idx_eq _ _ hmpl
    by_cases hc : b.board mv.to_sq = Piece.Empty
    · simp [Board.move_piece, Board.unmove_piece, Board.update_scores_for_move,
        Board.update_board_and_bitboards_for_move, Board.update_hash_for_move,
        Board.update_scores_for_unmove, Board.update_board_and_bitboards_for_unmove,
        Board.update_hash_for_unmove, Function.update_same,
        Function.update_noteq (Ne.symm hne), Function.update_apply, hc, hmc]
      by_cases hA : i = b.player_to_move.get_bb_idx <;> simp [hA, xor_cancel_right]
    · have hcapP : (b.board mv.to_sq).player = some b.player_to_move.opponent :=
        hcap.resolve_left hc
      by_cases hb : (b.board mv.to_sq).player = some Player.Black
      · have hcc : colorIdxOf (b.board mv.to_sq) = b.player_to_move.opponent.get_bb_idx :=
          color_idx_eq _ _ hcapP
        have hAC : b.player_to_move.get_bb_idx ≠ b.player_to_move.opponent.get_bb_idx :=
          color_idx_ne _
        have hbit2 : (b.color_bitboards (b.player_to_move.opponent.get_bb_idx)).testBit mv.to_sq = true := by
          have h0 := hcbit hc; rwa [hcc] at h0
        simp [Board.move_piece, Board.unmove_piece, Board.update_scores_for_move,
        Board.update_board_and_bitboards_for_move, Board.update_hash_for_move,
        Board.update_scores_for_unmove, Board.update_board_and_bitboards_for_unmove,
        Board.update_hash_for_unmove, Function.update_same,
        Function.update_noteq (Ne.symm hne), Function.update_apply, hc, hb, hmc, hcc, hAC, Ne.symm hAC]
        by_cases hiC : i = b.player_to_move.opponent.get_bb_idx
        · simp [hiC, hAC, Ne.symm hAC, restore_bit _ _ (hcbb _ (player_idx_lt_2 _)) ht128 hbit2]
        · by_cases hiA : i = b.player_to_move.get_bb_idx <;>
            simp [hiC, hiA, hAC, Ne.symm hAC, xor_cancel_right]
      · have hcc : colorIdxOf (b.board mv.to_sq) = b.player_to_move.opponent.get_bb_idx :=
          color_idx_eq _ _ hcapP
        have hAC : b.player_to_move.get_bb_idx ≠ b.player_to_move.opponent.get_bb_idx :=
          color_idx_ne _
        have hbit2 : (b.color_bitboards (b.player_to_move.opponent.get_bb_idx)).testBit mv.to_sq = true := by
          have h0 := hcbit hc; rwa [hcc] at h0
        simp [Board.move_piece, Board.unmove_piece, Board.update_scores_for_move,
        Board.update_board_and_bitboards_for_move, Board.update_hash_for_move,
        Board.update_scores_for_unmove, Board.update_board_and_bitboards_for_unmove,
        Board.update_hash_for_unmove, Function.update_same,
        Function.update_noteq (Ne.symm hne), Function.update_apply, hc, hb, hmc, hcc, hAC, Ne.symm hAC]
        by_cases hiC : i = b.player_to_move.opponent.get_bb_idx
        · simp [hiC, hAC, Ne.symm hAC, restore_bit _ _ (hcbb _ (player_idx_lt_2 _)) ht128 hbit2]
        · by_cases hiA : i = b.player_to_move.get_bb_idx <;>
            simp [hiC, hiA, hAC, Ne.symm hAC, xor_cancel_right]
  · intro s
    by_cases hc : b.board mv.to_sq = Piece.Empty
    · simp [Board.move_piece, Board.unmove_piece, Board.update_scores_for_move,
        Board.update_board_and_bitboards_for_move, Board.update_hash_for_move,
        Board.update_scores_for_unmove, Board.update_board_and_bitboards_for_unmove,
        Board.update_hash_for_unmove, Function.update_same,
        Function.update_noteq (Ne.symm hne), Function.update_apply, hc]
      by_cases hsT : s = mv.to_sq
      · simp [hsT, hc, hne]
      · by_cases hsF : s = mv.from_sq <;> simp [hsT, hsF, hne]
    · have hcapP : (b.board mv.to_sq).player = some b.player_to_move.opponent :=
        hcap.resolve_left hc
      by_cases hb : (b.board mv.to_sq).player = some Player.Black
      · simp [Board.move_piece, Board.unmove_piece, Board.update_scores_for_move,
          Board.update_board_and_bitboards_for_move, Board.update_hash_for_move,
          Board.update_scores_for_unmove, Board.update_board_and_bitboards_for_unmove,
          Board.update_hash_for_unmove, Function.update_same,
          Function.update_noteq (Ne.symm hne), Function.update_apply, hc, hb]
        by_cases hsT : s = mv.to_sq
        · simp [hsT, hne]
        · by_cases hsF : s = mv.from_sq <;> simp [hsT, hsF, hne]
      · simp [Board.move_piece, Board.unmove_piece, Board.update_scores_for_move,
          Board.update_board_and_bitboards_for_move, Board.update_hash_for_move,
          Board.update_scores_for_unmove, Board.update_board_and_bitboards_for_unmove,
          Board.update_hash_for_unmove, Function.update_same,
          Function.update_noteq (Ne.symm hne), Function.update_apply, hc, hb]
        by_cases hsT : s = mv.to_sq
        · simp [hsT, hne]
        · by_cases hsF : s = mv.from_sq <;> simp [hsT, hsF, hne]
  ·
    by_cases hc : b.board mv.to_sq = Piece.Empty
    · simp [Board.move_piece, Board.unmove_piece, Board.update_scores_for_move,
        Board.update_board_and_bitboards_for_move, Board.update_hash_for_move,
        Board.update_scores_for_unmove, Board.update_board_and_bitboards_for_unmove,
        Board.update_hash_for_unmove, Function.update_same,
        Function.update_noteq (Ne.symm hne), Function.update_apply, hc, player_opponent_opponent]
    · have hcapP : (b.board mv.to_sq).player = some b.player_to_move.opponent :=
        hcap.resolve_left hc
      by_cases hb : (b.board mv.to_sq).player = some Player.Black
      · simp [Board.move_piece, Board.unmove_piece, Board.update_scores_for_move,
          Board.update_board_and_bitboards_for_move, Board.update_hash_for_move,
          Board.update_scores_for_unmove, Board.update_board_and_bitboards_for_unmove,
          Board.update_hash_for_unmove, Function.update_same,
          Function.update_noteq (Ne.symm hne), Function.update_apply, hc, hb, player_opponent_opponent]
      · simp [Board.move_piece, Board.unmove_piece, Board.update_scores_for_move,
          Board.update_board_and_bitboards_for_move, Board.update_hash_for_move,
          Board.update_scores_for_unmove, Board.update_board_and_bitboards_for_unmove,
          Board.update_hash_for_unmove, Function.update_same,
          Function.update_noteq (Ne.symm hne), Function.update_apply, hc, hb, player_opponent_opponent]
  ·
    by_cases hc : b.board mv.to_sq = Piece.Empty
    · simp [Board.move_piece, Board.unmove_piece, Board.update_scores_for_move,
        Board.update_board_and_bitboards_for_move, Board.update_hash_for_move,
        Board.update_scores_for_unmove, Board.update_board_and_bitboards_for_unmove,
        Board.update_hash_for_unmove, Function.update_same,
        Function.update_noteq (Ne.symm hne), Function.update_apply, hc]
    · have hcapP : (b.board mv.to_sq).player = some b.player_to_move.opponent :=
        hcap.resolve_left hc
      by_cases hb : (b.board mv.to_sq).player = some Player.Black
      · simp [Board.move_piece, Board.unmove_piece, Board.update_scores_for_move,
          Board.update_board_and_bitboards_for_move, Board.update_hash_for_move,
          Board.update_scores_for_unmove, Board.update_board_and_bitboards_for_unmove,
          Board.update_hash_for_unmove, Function.update_same,
          Function.update_noteq (Ne.symm hne), Function.update_apply, hc, hb]
      · simp [Board.move_piece, Board.unmove_piece, Board.update_scores_for_move,
          Board.update_board_and_bitboards_for_move, Board.update_hash_for_move,
          Board.update_scores_for_unmove, Board.update_board_and_bitboards_for_unmove,
          Board.update_hash_for_unmove, Function.update_same,
          Function.update_noteq (Ne.symm hne), Function.update_apply, hc, hb]
  ·
    by_cases hc : b.board mv.to_sq = Piece.Empty
    · simp [Board.move_piece, Board.unmove_piece, Board.update_scores_for_move,
        Board.update_board_and_bitboards_for_move, Board.update_hash_for_move,
        Board.update_scores_for_unmove, Board.update_board_and_bitboards_for_unmove,
        Board.update_hash_for_unmove, Function.update_same,
        Function.update_noteq (Ne.symm hne), Function.update_apply, hc]
    · have hcapP : (b.board mv.to_sq).player = some b.player_to_move.opponent :=
        hcap.resolve_left hc
      by_cases hb : (b.board mv.to_sq).player = some Player.Black
      · simp [Board.move_piece, Board.unmove_piece, Board.update_scores_for_move,
          Board.update_board_and_bitboards_for_move, Board.update_hash_for_move,
          Board.update_scores_for_unmove, Board.update_board_and_bitboards_for_unmove,
          Board.update_hash_for_unmove, Function.update_same,
          Function.update_noteq (Ne.symm hne), Function.update_apply, hc, hb]
        try ring_nf
      · simp [Board.move_piece, Board.unmove_piece, Board.update_scores_for_move,
          Board.update_board_and_bitboards_for_move, Board.update_hash_for_move,
          Board.update_scores_for_unmove, Board.update_board_and_bitboards_for_unmove,
          Board.update_hash_for_unmove, Function.update_same,
          Function.update_noteq (Ne.symm hne), Function.update_apply, hc, hb]
        try ring_nf
  ·
    by_cases hc : b.board mv.to_sq = Piece.Empty
    · simp [Board.move_piece, Board.unmove_piece, Board.update_scores_for_move,
        Board.update_board_and_bitboards_for_move, Board.update_hash_for_move,
        Board.update_scores_for_unmove, Board.update_board_and_bitboards_for_unmove,
        Board.update_hash_for_unmove, Function.update_same,
        Function.update_noteq (Ne.symm hne), Function.update_apply, hc]
    · have hcapP : (b.board mv.to_sq).player = some b.player_to_move.opponent :=
        hcap.resolve_left hc
      by_cases hb : (b.board mv.to_sq).player = some Player.Black
      · simp [Board.move_piece, Board.unmove_piece, Board.update_scores_for_move,
          Board.update_board_and_bitboards_for_move, Board.update_hash_for_move,
          Board.update_scores_for_unmove, Board.update_board_and_bitboards_for_unmove,
          Board.update_hash_for_unmove, Function.update_same,
          Function.update_noteq (Ne.symm hne), Function.update_apply, hc, hb]
        try ring_nf
      · simp [Board.move_piece, Board.unmove_piece, Board.update_scores_for_move,
          Board.update_board_and_bitboards_for_move, Board.update_hash_for_move,
          Board.update_scores_for_unmove, Board.update_board_and_bitboards_for_unmove,
          Board.update_hash_for_unmove, Function.update_same,
          Function.update_noteq (Ne.symm hne), Function.update_apply, hc, hb]
        try ring_nf
  ·
    by_cases hc : b.board mv.to_sq = Piece.Empty
    · simp [Board.move_piece, Board.unmove_piece, Board.update_scores_for_move,
        Board.update_board_and_bitboards_for_move, Board.update_hash_for_move,
        Board.update_scores_for_unmove, Board.update_board_and_bitboards_for_unmove,
        Board.update_hash_for_unmove, Function.update_same,
        Function.update_noteq (Ne.symm hne), Function.update_apply, hc]
    · have hcapP : (b.board mv.to_sq).player = some b.player_to_move.opponent :=
        hcap.resolve_left hc
      by_cases hb : (b.board mv.to_sq).player = some Player.Black
      · simp [Board.move_piece, Board.unmove_piece, Board.update_scores_for_move,
          Board.update_board_and_bitboards_for_move, Board.update_hash_for_move,
          Board.update_scores_for_unmove, Board.update_board_and_bitboards_for_unmove,
          Board.update_hash_for_unmove, Function.update_same,
          Function.update_noteq (Ne.symm hne), Function.update_apply, hc, hb]
        try ring_nf
      · simp [Board.move_piece, Board.unmove_piece, Board.update_scores_for_move,
          Board.update_board_and_bitboards_for_move, Board.update_hash_for_move,
          Board.update_scores_for_unmove, Board.update_board_and_bitboards_for_unmove,
          Board.update_hash_for_unmove, Function.update_same,
          Function.update_noteq (Ne.symm hne), Function.update_apply, hc, hb]
        try ring_nf


/-- Witness for C1: the opening-position pawn push 54 -> 45 and its unmake. -/
theorem c1_move_unmove_roundtrip_witness :
    (start_board.move_piece (Move.new 54 45 none)).2 = start_board.board 45 ∧
    ((start_board.move_piece (Move.new 54 45 none)).1.unmove_piece (Move.new 54 45 none)
      (start_board.move_piece (Move.new 54 45 none)).2).hash_key = start_board.hash_key ∧
    ((start_board.move_piece (Move.new 54 45 none)).1.unmove_piece (Move.new 54 45 none)
      (start_board.move_piece (Move.new 54 45 none)).2).player_to_move
      = start_board.player_to_move := by
  have h := c1_move_unmove_roundtrip start_board (Move.new 54 45 none)
    (by decide) (by decide) (by decide) (by decide) (by decide) (by decide) (by decide)
  exact ⟨h.1, h.2.1, h.2.2.2.2.2.1⟩

theorem mem_filter_fold (p : Move → Bool) (l : List Move) (acc : List Move) (m : Move)
    (h : m ∈ l.foldl (fun acc mv => if p mv then movelist_add acc mv else acc) acc) :
    m ∈ acc ∨ p m = true := by
  induction l generalizing acc with
  | nil => exact Or.inl h
  | cons a l ih =>
    simp only [List.foldl_cons] at h
    rcases ih _ h with h' | h'
    · by_cases hpa : p a = true
      · rw [if_pos hpa] at h'
        unfold movelist_add at h'
        split at h'
        · rcases List.mem_append.1 h' with h2 | h2
          · exact Or.inl h2
          · simp at h2
            subst h2
            exact Or.inr hpa
        · exact Or.inl h'
      · rw [if_neg hpa] at h'
        exact Or.inl h'
    · exact Or.inr h'

theorem move_piece_player (b : Board) (mv : Move) :
    (b.move_piece mv).1.player_to_move = b.player_to_move.opponent := by
  by_cases hc : b.board mv.to_sq = Piece.Empty
  · simp [Board.move_piece, Board.unmove_piece, Board.update_scores_for_move,
      Board.update_board_and_bitboards_for_move, Board.update_hash_for_move, hc]
  · by_cases hb : (b.board mv.to_sq).player = some Player.Black <;>
    simp [Board.move_piece, Board.unmove_piece, Board.update_scores_for_move,
      Board.update_board_and_bitboards_for_move, Board.update_hash_for_move, hc, hb]

theorem is_king_in_check_false_iff (b : Board) (pl : Player) :
    is_king_in_check b pl = false ↔
    (b.piece_bitboards (bbIndexOf (if pl = .Red then Piece.RKing else Piece.BKing)) ≠ 0 ∧
     is_square_attacked_by b
       (trailing_zeros (b.piece_bitboards
         (bbIndexOf (if pl = .Red then Piece.RKing else Piece.BKing)))) pl.opponent = false ∧
     (b.piece_bitboards (bbIndexOf (if pl = .Red then Piece.BKing else Piece.RKing)) ≠ 0 →
       ¬(trailing_zeros (b.piece_bitboards
            (bbIndexOf (if pl = .Red then Piece.RKing else Piece.BKing))) % 9 =
          trailing_zeros (b.piece_bitboards
            (bbIndexOf (if pl = .Red then Piece.BKing else Piece.RKing))) % 9 ∧
         (b.occupied_bitboard &&&
           betweenFileMask
             (min (trailing_zeros (b.piece_bitboards
                (bbIndexOf (if pl = .Red then Piece.RKing else Piece.BKing))))
               (trailing_zeros (b.piece_bitboards
                (bbIndexOf (if pl = .Red then Piece.BKing else Piece.RKing)))))
             (max (trailing_zeros (b.piece_bitboards
                (bbIndexOf (if pl = .Red then Piece.RKing else Piece.BKing))))
               (trailing_zeros (b.piece_bitboards
                (bbIndexOf (if pl = .Red then Piece.BKing else Piece.RKing)))))
             (trailing_zeros (b.piece_bitboards
                (bbIndexOf (if pl = .Red then Piece.RKing else Piece.BKing))) % 9)) = 0))) := by
  unfold is_king_in_check
  split_ifs with h1 h2 h3 h4 h5 <;> simp_all

/-- Claim C2: every move produced by `generate_legal_moves` leads to a position
in which the mover's king is not in check under the code's own predicate
`is_king_in_check`, which unfolds to: the mover's king exists, its square is
not attacked by the opponent, and - when the opponent's king is on the board -
the two kings do not share a file with no piece strictly between them (no
flying general). -/
theorem c2_legal_moves_sound (b : Board) (mv : Move)
    (hm : mv ∈ b.generate_legal_moves) :
    is_king_in_check (b.move_piece mv).1 b.player_to_move = false ∧
    ((b.move_piece mv).1.piece_bitboards
       (bbIndexOf (if b.player_to_move = .Red then Piece.RKing else Piece.BKing)) ≠ 0 ∧
     is_square_attacked_by (b.move_piece mv).1
       (trailing_zeros ((b.move_piece mv).1.piece_bitboards
         (bbIndexOf (if b.player_to_move = .Red then Piece.RKing else Piece.BKing))))
       b.player_to_move.opponent = false ∧
     ((b.move_piece mv).1.piece_bitboards
        (bbIndexOf (if b.player_to_move = .Red then Piece.BKing else Piece.RKing)) ≠ 0 →
       ¬(trailing_zeros ((b.move_piece mv).1.piece_bitboards
            (bbIndexOf (if b.player_to_move = .Red then Piece.RKing else Piece.BKing))) % 9 =
          trailing_zeros ((b.move_piece mv).1.piece_bitboards
            (bbIndexOf (if b.player_to_move = .Red then Piece.BKing else Piece.RKing))) % 9 ∧
         ((b.move_piece mv).1.occupied_bitboard &&&
           betweenFileMask
             (min (trailing_zeros ((b.move_piece mv).1.piece_bitboards
                (bbIndexOf (if b.player_to_move = .Red then Piece.RKing else Piece.BKing))))
               (trailing_zeros ((b.move_piece mv).1.piece_bitboards
                (bbIndexOf (if b.player_to_move = .Red then Piece.BKing else Piece.RKing)))))
             (max (trailing_zeros ((b.move_piece mv).1.piece_bitboards
                (bbIndexOf (if b.player_to_move = .Red then Piece.RKing else Piece.BKing))))
               (trailing_zeros ((b.move_piece mv).1.piece_bitboards
                (bbIndexOf (if b.player_to_move = .Red then Piece.BKing else Piece.RKing)))))
             (trailing_zeros ((b.move_piece mv).1.piece_bitboards
                (bbIndexOf (if b.player_to_move = .Red then Piece.RKing else Piece.BKing))) % 9))
           = 0))) := by
  unfold Board.generate_legal_moves at hm
  have hgate := mem_filter_fold _ _ _ _ hm
  rcases hgate with h0 | hp
  · simp at h0
  · have hpl : (b.move_piece mv).1.player_to_move.opponent = b.player_to_move := by
      rw [move_piece_player, player_opponent_opponent]
    rw [hpl] at hp
    simp only [Bool.not_eq_true'] at hp
    exact ⟨hp, (is_king_in_check_false_iff _ _).1 hp⟩

/-- Witness for C2: on the bare-kings flying-general position, the single legal
move 84 -> 85 indeed leaves the Red king out of check. -/
theorem c2_legal_moves_sound_witness :
    is_king_in_check ((c2_board.move_piece (Move.new 84 85 none)).1) c2_board.player_to_move
      = false :=
  (c2_legal_moves_sound c2_board (Move.new 84 85 none) (by decide)).1

theorem foldl_xor_acc (k : Nat → Nat) (L : List Nat) (x y : Nat) :
    L.foldl (fun a s => a ^^^ k s) (x ^^^ y) = L.foldl (fun a s => a ^^^ k s) x ^^^ y := by
  induction L generalizing x with
  | nil => rfl
  | cons a L ih =>
    simp only [List.foldl_cons]
    rw [show x ^^^ y ^^^ k a = x ^^^ k a ^^^ y by
      rw [Nat.xor_assoc, Nat.xor_assoc, Nat.xor_comm y (k a)]]
    exact ih (x ^^^ k a)

theorem foldl_key_congr (f g : Nat → Piece) (L : List Nat)
    (h : ∀ s ∈ L, f s = g s) (acc : Nat) :
    L.foldl (fun a s => a ^^^ zobristKeyAt (f s) s) acc =
      L.foldl (fun a s => a ^^^ zobristKeyAt (g s) s) acc := by
  induction L generalizing acc with
  | nil => rfl
  | cons a L ih =>
    simp only [List.foldl_cons]
    rw [h a (List.mem_cons_self a L)]
    exact ih (fun s hs => h s (List.mem_cons_of_mem a hs)) _

theorem hash_fold_update_on (f : Nat → Piece) (s0 : Nat) (p : Piece) (L : List Nat)
    (hnd : L.Nodup) (hs0 : s0 ∈ L) : ∀ acc : Nat,
    L.foldl (fun a s => a ^^^ zobristKeyAt (Function.update f s0 p s) s) acc =
      L.foldl (fun a s => a ^^^ zobristKeyAt (f s) s) acc
        ^^^ zobristKeyAt (f s0) s0 ^^^ zobristKeyAt p s0 := by
  induction L with
  | nil => exact absurd hs0 (List.not_mem_nil s0)
  | cons a L ih =>
    intro acc
    have hnd' := List.nodup_cons.1 hnd
    simp only [List.foldl_cons]
    by_cases ha : s0 = a
    · subst ha
      rw [Function.update_same]
      rw [foldl_key_congr (Function.update f s0 p) f L
        (fun s hs => Function.update_noteq (fun he => hnd'.1 (by rw [← he]; exact hs)) _ _)]
      rw [show acc ^^^ zobristKeyAt p s0 =
            acc ^^^ zobristKeyAt (f s0) s0 ^^^ zobristKeyAt (f s0) s0 ^^^ zobristKeyAt p s0 by
        rw [xor_cancel_right]]
      rw [foldl_xor_acc, foldl_xor_acc]
    · have hs0' : s0 ∈ L := by
        rcases List.mem_cons.1 hs0 with h | h
        · exact absurd h ha
        · exact h
      rw [Function.update_noteq (fun he => ha he.symm)]
      exact ih hnd'.2 hs0' _

theorem hash_fold_update (f : Nat → Piece) (s0 : Nat) (hs0 : s0 < 90) (p : Piece) :
    hash_fold (Function.update f s0 p) =
      hash_fold f ^^^ zobristKeyAt (f s0) s0 ^^^ zobristKeyAt p s0 := by
  unfold hash_fold
  exact hash_fold_update_on f s0 p (List.range 90) (List.nodup_range 90)
    (List.mem_range.2 hs0) 0

theorem zobrist_key_empty (s : Nat) : zobristKeyAt Piece.Empty s = 0 := rfl

theorem side_term_opponent (pl : Player) :
    (if pl.opponent = Player.Black then ZOBRIST_PLAYER else 0) =
      (if pl = Player.Black then ZOBRIST_PLAYER else 0) ^^^ ZOBRIST_PLAYER := by
  cases pl <;> simp [Player.opponent, ZOBRIST_PLAYER]

theorem move_piece_hash_invariant (b : Board) (mv : Move)
    (hne : mv.from_sq ≠ mv.to_sq) (hf : mv.from_sq < 90) (ht : mv.to_sq < 90)
    (hinv : hash_invariant b) : hash_invariant (b.move_piece mv).1 := by
  unfold hash_invariant at hinv ⊢
  simp only [board_hash_pieces] at hinv
  by_cases hc : b.board mv.to_sq = Piece.Empty
  · simp only [Board.move_piece, Board.update_scores_for_move,
        Board.update_board_and_bitboards_for_move, Board.update_hash_for_move,
        board_hash_pieces, hc, ne_eq, not_true_eq_false, not_false_eq_true,
        if_true, ite_true, if_false, ite_false, ite_not, ite_self,
        Function.update_same, Function.update_noteq (Ne.symm hne)]
    · rw [hash_fold_update _ _ ht, Function.update_noteq (Ne.symm hne),
        hash_fold_update _ _ hf, hinv, side_term_opponent]
      simp [zobrist_key_empty, hc, Nat.xor_assoc, Nat.xor_comm, xor_left_comm, Nat.xor_self,
        Nat.xor_zero, Nat.zero_xor, xor_cancel_left]
  · by_cases hb : (b.board mv.to_sq).player = some Player.Black
    · simp only [Board.move_piece, Board.update_scores_for_move,
        Board.update_board_and_bitboards_for_move, Board.update_hash_for_move,
        board_hash_pieces, hc, hb, ne_eq, not_true_eq_false, not_false_eq_true,
        if_true, ite_true, if_false, ite_false, ite_not, ite_self,
        Function.update_same, Function.update_noteq (Ne.symm hne)]
      rw [hash_fold_update _ _ ht, Function.update_noteq (Ne.symm hne),
        hash_fold_update _ _ hf, hinv, side_term_opponent]
      simp [zobrist_key_empty, hc, Nat.xor_assoc, Nat.xor_comm, xor_left_comm, Nat.xor_self,
        Nat.xor_zero, Nat.zero_xor, xor_cancel_left]
    · simp only [Board.move_piece, Board.update_scores_for_move,
        Board.update_board_and_bitboards_for_move, Board.update_hash_for_move,
        board_hash_pieces, hc, hb, ne_eq, not_true_eq_false, not_false_eq_true,
        if_true, ite_true, if_false, ite_false, ite_not, ite_self,
        Function.update_same, Function.update_noteq (Ne.symm hne)]
      rw [hash_fold_update _ _ ht, Function.update_noteq (Ne.symm hne),
        hash_fold_update _ _ hf, hinv, side_term_opponent]
      simp [zobrist_key_empty, hc, Nat.xor_assoc, Nat.xor_comm, xor_left_comm, Nat.xor_self,
        Nat.xor_zero, Nat.zero_xor, xor_cancel_left]

theorem unmove_piece_hash_invariant (b : Board) (mv : Move) (captured : Piece)
    (hne : mv.from_sq ≠ mv.to_sq) (hf : mv.from_sq < 90) (ht : mv.to_sq < 90)
    (hfe : b.board mv.from_sq = Piece.Empty)
    (hinv : hash_invariant b) : hash_invariant (b.unmove_piece mv captured) := by
  unfold hash_invariant at hinv ⊢
  simp only [board_hash_pieces] at hinv
  by_cases hcapE : captured = Piece.Empty
  · simp only [Board.unmove_piece, Board.update_scores_for_unmove,
        Board.update_board_and_bitboards_for_unmove, Board.update_hash_for_unmove,
        board_hash_pieces, hcapE, ne_eq, not_true_eq_false, not_false_eq_true,
        if_true, ite_true, if_false, ite_false, ite_not, ite_self,
        Function.update_same, Function.update_noteq (Ne.symm hne)]
    · rw [hash_fold_update _ _ ht, Function.update_noteq (Ne.symm hne),
        hash_fold_update _ _ hf, hfe, hinv, side_term_opponent]
      simp [zobrist_key_empty, Nat.xor_assoc, Nat.xor_comm, xor_left_comm, Nat.xor_self,
        Nat.xor_zero, Nat.zero_xor, xor_cancel_left]
  · by_cases hb : captured.player = some Player.Black
    · simp only [Board.unmove_piece, Board.update_scores_for_unmove,
        Board.update_board_and_bitboards_for_unmove, Board.update_hash_for_unmove,
        board_hash_pieces, hcapE, hb, ne_eq, not_true_eq_false, not_false_eq_true,
        if_true, ite_true, if_false, ite_false, ite_not, ite_self,
        Function.update_same, Function.update_noteq (Ne.symm hne)]
      rw [hash_fold_update _ _ ht, Function.update_noteq (Ne.symm hne),
        hash_fold_update _ _ hf, hfe, hinv, side_term_opponent]
      simp [zobrist_key_empty, Nat.xor_assoc, Nat.xor_comm, xor_left_comm, Nat.xor_self,
        Nat.xor_zero, Nat.zero_xor, xor_cancel_left]
    · simp only [Board.unmove_piece, Board.update_scores_for_unmove,
        Board.update_board_and_bitboards_for_unmove, Board.update_hash_for_unmove,
        board_hash_pieces, hcapE, hb, ne_eq, not_true_eq_false, not_false_eq_true,
        if_true, ite_true, if_false, ite_false, ite_not, ite_self,
        Function.update_same, Function.update_noteq (Ne.symm hne)]
      rw [hash_fold_update _ _ ht, Function.update_noteq (Ne.symm hne),
        hash_fold_update _ _ hf, hfe, hinv, side_term_opponent]
      simp [zobrist_key_empty, Nat.xor_assoc, Nat.xor_comm, xor_left_comm, Nat.xor_self,
        Nat.xor_zero, Nat.zero_xor, xor_cancel_left]

theorem apply_steps_hash_invariant (steps : List Step) (b : Board)
    (hinv : hash_invariant b) (htr : valid_trace b steps) :
    hash_invariant (apply_steps b steps) := by
  induction steps generalizing b with
  | nil => exact hinv
  | cons s rest ih =>
    rcases htr with ⟨hs, htr⟩
    cases s with
    | mk_move mv =>
      rcases hs with ⟨hne, hf, ht, _⟩
      exact ih _ (move_piece_hash_invariant b mv hne hf ht hinv) htr
    | un_move mv cap =>
      rcases hs with ⟨hne, hf, ht, _, hfe⟩
      exact ih _ (unmove_piece_hash_invariant b mv cap hne hf ht hfe hinv) htr

theorem set_piece_player (b : Board) (sq : Nat) (p : Piece) :
    (b.set_piece sq p).player_to_move = b.player_to_move := rfl

theorem parse_layout_hash (chars : List Char) : ∀ (b : Board) (rank file : Nat),
    wf_layout chars rank file = true → rank ≤ 9 →
    (∀ s, s < 90 → rank * 9 + file ≤ s → b.board s = Piece.Empty) →
    b.hash_key = hash_fold b.board →
    ∀ res : Board × Nat × Nat, parseLayout chars b rank file = some res →
      res.1.hash_key = hash_fold res.1.board ∧ res.1.player_to_move = b.player_to_move := by
  induction chars with
  | nil =>
    intro b rank file _ _ _ hh res hp
    simp only [parseLayout, Option.some.injEq] at hp
    rw [← hp]
    exact ⟨hh, rfl⟩
  | cons ch rest ih =>
    intro b rank file hwf hrk hfut hh res hp
    unfold parseLayout at hp
    unfold wf_layout at hwf
    by_cases hsl : ch = '/'
    · simp only [hsl, if_true, ite_true, Bool.and_eq_true, decide_eq_true_eq] at hp hwf
      obtain ⟨⟨hf9, hrk9⟩, hwf'⟩ := hwf
      refine ih b (rank + 1) 0 hwf' (by omega) ?_ hh res hp
      intro s hs90 hbound
      exact hfut s hs90 (by omega)
    · by_cases hd : ch.isDigit
      · simp only [hsl, hd, if_false, ite_false, if_true, ite_true, Bool.and_eq_true,
          decide_eq_true_eq] at hp hwf
        obtain ⟨⟨hd1, hd9⟩, hwf'⟩ := hwf
        refine ih b rank (file + (ch.toNat - 48)) hwf' hrk ?_ hh res hp
        intro s hs90 hbound
        exact hfut s hs90 (by omega)
      · simp only [hsl, hd, if_false, ite_false, Bool.false_eq_true, Bool.and_eq_true,
          decide_eq_true_eq] at hp hwf
        obtain ⟨⟨hsome, hf9⟩, hwf'⟩ := hwf
        obtain ⟨p, hpc⟩ := Option.isSome_iff_exists.1 hsome
        simp only [hpc] at hp
        have hsq : rank * 9 + file < 90 := by omega
        rw [if_pos hsq] at hp
        refine ih (b.set_piece (rank * 9 + file) p) rank (file + 1) hwf' hrk ?_ ?_ res hp
        · intro s hs90 hbound
          have hne : s ≠ rank * 9 + file := by omega
          show Function.update b.board (rank * 9 + file) p s = Piece.Empty
          rw [Function.update_noteq hne]
          exact hfut s hs90 (by omega)
        · show b.hash_key ^^^ zobristKeyAt p (rank * 9 + file) =
            hash_fold (Function.update b.board (rank * 9 + file) p)
          rw [hash_fold_update _ _ hsq, hfut _ hsq (by omega), zobrist_key_empty,
            Nat.xor_zero, hh]

theorem from_fen_hash_invariant (s : String) (hwf : wf_fen s = true) (b0 : Board)
    (h : from_fen s = some b0) : hash_invariant b0 := by
  unfold wf_fen at hwf
  unfold from_fen at h
  rcases hsp : splitWs s.data with _ | ⟨layout, rest⟩
  · rw [hsp] at h
    exact absurd h (by simp)
  · rw [hsp] at h hwf
    rcases rest with _ | ⟨side, rest'⟩
    · simp at hwf
    · dsimp only at h hwf
      rcases hpl : parseLayout layout Board.new 0 0 with _ | ⟨bp, rankfile⟩
      · rw [hpl] at h
        exact absurd h (by simp)
      · rw [hpl] at h
        simp only [Bool.and_eq_true, Bool.or_eq_true, decide_eq_true_eq] at hwf
        have hph := parse_layout_hash layout Board.new 0 0 hwf.1 (by omega)
          (fun s _ _ => rfl) rfl (bp, rankfile) hpl
        obtain ⟨hbh, hbpl⟩ := hph
        simp only [Option.some.injEq] at h
        by_cases hside : side = ['w']
        · simp only [hside, if_true, ite_true] at h
          rw [← h]
          unfold hash_invariant board_hash_pieces
          simp
          exact hbh
        · simp only [hside, if_false, ite_false] at h
          rw [← h]
          unfold hash_invariant board_hash_pieces
          simp
          exact hbh

/-- Claim C3: for every board built by `from_fen` from a well-formed position
string and then mutated by any valid sequence of `move_piece` / `unmove_piece`
calls (squares in range and distinct, pieces present where the calls read
them - the facts every legal make/unmake pair provides), the stored hash key
equals the xor of the Zobrist keys of all non-empty squares, xored with the
side-to-move key exactly when Black is to move (`hash_invariant`). -/
theorem c3_hash_consistency (s : String) (steps : List Step) (b0 : Board)
    (hwf : wf_fen s = true) (hparse : from_fen s = some b0)
    (htr : valid_trace b0 steps) :
    hash_invariant (apply_steps b0 steps) :=
  apply_steps_hash_invariant steps b0 (from_fen_hash_invariant s hwf b0 hparse) htr

/-- Witness for C3: the opening position, one pawn push and its unmake. -/
theorem c3_hash_consistency_witness :
    hash_invariant (apply_steps
      ((from_fen "rnbakabnr/9/1c5c1/p1p1p1p1p/9/9/P1P1P1P1P/1C5C1/9/RNBAKABNR w - - 0 1").getD
        Board.new)
      [Step.mk_move (Move.new 54 45 none),
       Step.un_move (Move.new 54 45 none) Piece.Empty]) :=
  c3_hash_consistency "rnbakabnr/9/1c5c1/p1p1p1p1p/9/9/P1P1P1P1P/1C5C1/9/RNBAKABNR w - - 0 1"
    [Step.mk_move (Move.new 54 45 none), Step.un_move (Move.new 54 45 none) Piece.Empty]
    _ (by decide) rfl (by decide)

theorem tzGo_spec : ∀ (f n : Nat), n ≠ 0 → n < 2 ^ f →
    n.testBit (tzGo f n) = true ∧ ∀ i, i < tzGo f n → n.testBit i = false := by
  intro f
  induction f with
  | zero => intro n h0 h1; omega
  | succ f ih =>
    intro n h0 h1
    unfold tzGo
    by_cases hodd : n % 2 = 1
    · simp [hodd]
    · have hhalf : n / 2 ≠ 0 := by omega
      have hlt : n / 2 < 2 ^ f := by
        rw [pow_succ] at h1
        omega
      obtain ⟨ht, hlo⟩ := ih (n / 2) hhalf hlt
      rw [if_neg hodd]
      constructor
      · rw [Nat.testBit_succ]
        exact ht
      · intro i hi
        cases i with
        | zero => simp [hodd]
        | succ j =>
          rw [Nat.testBit_succ]
          exact hlo j (by omega)

theorem trailing_zeros_spec (n : Nat) (h0 : n ≠ 0) (h1 : n < 2 ^ 128) :
    n.testBit (trailing_zeros n) = true ∧
      ∀ i, i < trailing_zeros n → n.testBit i = false := by
  unfold trailing_zeros
  rw [if_neg h0]
  exact tzGo_spec 128 n h0 h1

theorem testBit_lt_128 {n t : Nat} (h1 : n < 2 ^ 128) (ht : n.testBit t = true) : t < 128 := by
  by_contra hge
  have : n.testBit t = false := by
    apply Nat.testBit_lt_two_pow
    calc n < 2 ^ 128 := h1
    _ ≤ 2 ^ t := Nat.pow_le_pow_right (by omega) (by omega)
  rw [this] at ht
  exact absurd ht (by simp)

theorem bitsGo_sound : ∀ (f bb : Nat), bb < 2 ^ 128 →
    ∀ t ∈ bitsGo f bb, bb.testBit t = true := by
  intro f
  induction f with
  | zero => intro bb _ t ht; exact absurd ht (List.not_mem_nil t)
  | succ f ih =>
    intro bb hbb t ht
    unfold bitsGo at ht
    by_cases h0 : bb = 0
    · rw [if_pos h0] at ht
      exact absurd ht (List.not_mem_nil t)
    · rw [if_neg h0] at ht
      rcases List.mem_cons.1 ht with h | h
      · rw [h]
        exact (trailing_zeros_spec bb h0 hbb).1
      · have hsub : bb &&& bbNot (bbMask (trailing_zeros bb)) < 2 ^ 128 :=
          Nat.lt_of_le_of_lt Nat.and_le_left hbb
        have h2 := ih _ hsub t h
        rw [Nat.testBit_and, Bool.and_eq_true] at h2
        exact h2.1

theorem squaresOf_sound (bb : Nat) (hbb : bb < 2 ^ 128) :
    ∀ t ∈ squaresOf bb, bb.testBit t = true ∧ t < 128 := by
  intro t ht
  have h := bitsGo_sound 128 bb hbb t ht
  exact ⟨h, testBit_lt_128 hbb h⟩

theorem capbit_cases (cap : Option Piece) :
    (if cap.isSome = true then (1 <<< 14 : Nat) else 0) = 0 ∨
    (if cap.isSome = true then (1 <<< 14 : Nat) else 0) = 2 ^ 14 := by
  split
  · right; decide
  · left; rfl

theorem lit127 : (0x7F : Nat) = 2 ^ 7 - 1 := by norm_num

theorem testBit_big {x i j : Nat} (hx : x < 2 ^ i) (hij : i ≤ j) : x.testBit j = false := by
  apply Nat.testBit_lt_two_pow
  calc x < 2 ^ i := hx
  _ ≤ 2 ^ j := Nat.pow_le_pow_right (by omega) hij

theorem move_new_from_sq (f t : Nat) (hf : f < 128) (ht : t < 128) (cap : Option Piece) :
    (Move.new f t cap).from_sq = f := by
  unfold Move.new Move.from_sq
  rcases capbit_cases cap with hC | hC <;>
    (rw [lit127, hC]
     apply Nat.eq_of_testBit_eq
     intro i
     simp only [Nat.testBit_and, Nat.testBit_or, Nat.testBit_shiftLeft,
       Nat.testBit_two_pow_sub_one, Nat.testBit_two_pow, Nat.zero_testBit]
     by_cases hi : i < 7
     · simp [hi, show ¬(7 ≤ i) by omega, show ¬(14 = i) by omega]
     · simp [hi, testBit_big hf (show 7 ≤ i by omega)])

theorem move_new_to_sq (f t : Nat) (hf : f < 128) (ht : t < 128) (cap : Option Piece) :
    (Move.new f t cap).to_sq = t := by
  unfold Move.new Move.to_sq
  rcases capbit_cases cap with hC | hC <;>
    (rw [lit127, hC]
     apply Nat.eq_of_testBit_eq
     intro i
     simp only [Nat.testBit_and, Nat.testBit_or, Nat.testBit_shiftRight,
       Nat.testBit_shiftLeft, Nat.testBit_two_pow_sub_one, Nat.testBit_two_pow,
       Nat.zero_testBit]
     by_cases hi : i < 7
     · simp [hi, testBit_big hf (show 7 ≤ 7 + i by omega),
         show (7 : Nat) ≤ 7 + i by omega, show 7 + i - 7 = i by omega,
         show ¬(14 = 7 + i) by omega]
     · simp [hi, testBit_big hf (show 7 ≤ 7 + i by omega),
         testBit_big ht (show 7 ≤ i by omega)])

theorem move_new_is_capture (f t : Nat) (hf : f < 128) (ht : t < 128) (cap : Option Piece) :
    (Move.new f t cap).is_capture = cap.isSome := by
  unfold Move.new Move.is_capture
  rcases capbit_cases cap with hC | hC <;> rw [hC]
  · have : cap.isSome = false := by
      by_contra hcs
      simp only [Bool.not_eq_false] at hcs
      rw [if_pos hcs] at hC
      exact absurd hC (by decide)
    rw [this]
    have hz : (f ||| t <<< 7 ||| 0) >>> 14 &&& 1 = 0 := by
      apply Nat.eq_of_testBit_eq
      intro i
      simp only [Nat.testBit_and, Nat.testBit_or, Nat.testBit_shiftRight,
        Nat.testBit_shiftLeft, Nat.zero_testBit]
      by_cases hi : i = 0
      · subst hi
        simp [testBit_big hf (show 7 ≤ 14 + 0 by omega),
          testBit_big ht (show 7 ≤ 7 by omega), show (7:Nat) ≤ 14 + 0 by omega,
          show 14 + 0 - 7 = 7 by omega]
      · have h1 : Nat.testBit 1 i = false := by
          rw [show (1 : Nat) = 2 ^ 0 by norm_num, Nat.testBit_two_pow]
          simp
          omega
        simp [h1]
    rw [Nat.and_one_is_mod] at hz
    simp only [Nat.or_zero] at hz
    simp [hz]
  · have : cap.isSome = true := by
      by_contra hcs
      simp only [Bool.not_eq_true] at hcs
      rw [if_neg (by simp [hcs])] at hC
      exact absurd hC.symm (by decide)
    rw [this]
    have hz : (f ||| t <<< 7 ||| 2 ^ 14) >>> 14 &&& 1 = 1 := by
      apply Nat.eq_of_testBit_eq
      intro i
      simp only [Nat.testBit_and, Nat.testBit_or, Nat.testBit_shiftRight,
        Nat.testBit_shiftLeft, Nat.testBit_two_pow]
      by_cases hi : i = 0
      · subst hi
        simp [testBit_big hf (show 7 ≤ 14 + 0 by omega),
          testBit_big ht (show 7 ≤ 7 by omega), show (7:Nat) ≤ 14 + 0 by omega,
          show 14 + 0 - 7 = 7 by omega]
      · have h1 : Nat.testBit 1 i = false := by
          rw [show (1 : Nat) = 2 ^ 0 by norm_num, Nat.testBit_two_pow]
          simp
          omega
        simp [h1, show ¬(14 = 14 + i) by omega]
    rw [Nat.and_one_is_mod] at hz
    norm_num at hz
    simp [hz]

theorem mem_movelist_add (l : List Move) (x m : Move) (h : m ∈ movelist_add l x) :
    m ∈ l ∨ m = x := by
  unfold movelist_add at h
  split at h
  · rcases List.mem_append.1 h with h2 | h2
    · exact Or.inl h2
    · simp at h2
      exact Or.inr h2
  · exact Or.inl h

theorem fold_mem_general {α : Type} (step : List Move → α → List Move)
    (Q : α → Move → Prop) :
    ∀ (L : List α), (∀ acc x m, x ∈ L → m ∈ step acc x → m ∈ acc ∨ Q x m) →
    ∀ (acc : List Move) (m : Move),
      m ∈ L.foldl step acc → m ∈ acc ∨ ∃ x ∈ L, Q x m := by
  intro L
  induction L with
  | nil => intro _ acc m h; exact Or.inl h
  | cons a L ih =>
    intro H acc m h
    simp only [List.foldl_cons] at h
    rcases ih (fun acc x m hx hm => H acc x m (List.mem_cons_of_mem a hx) hm) _ m h with h2 | h2
    · rcases H acc a m (List.mem_cons_self a L) h2 with h3 | h3
      · exact Or.inl h3
      · exact Or.inr ⟨a, List.mem_cons_self a L, h3⟩
    · obtain ⟨x, hx, hq⟩ := h2
      exact Or.inr ⟨x, List.mem_cons_of_mem a hx, hq⟩

theorem testBit_lt_pow {n t k : Nat} (h1 : n < 2 ^ k) (ht : n.testBit t = true) : t < k := by
  by_contra hge
  rw [testBit_big h1 (by omega)] at ht
  exact absurd ht (by simp)

theorem add_moves_mem (b : Board) (acc : List Move) (f bb : Nat) (cap : Bool) (m : Move)
    (h : m ∈ b.add_moves acc f bb cap) :
    m ∈ acc ∨ ∃ t ∈ squaresOf bb,
      m = Move.new f t (if cap then some (b.board t) else none) := by
  unfold Board.add_moves at h
  exact fold_mem_general _
    (fun t m => m = Move.new f t (if cap then some (b.board t) else none)) _
    (fun acc t m _ hm => mem_movelist_add _ _ _ hm) _ _ h

theorem inner_captures_mem (b : Board) (pt : Piece) (occ pidx oppbb : Nat)
    (hopp : oppbb < 2 ^ 128) (L : List Nat) (acc : List Move) (m : Move)
    (h : m ∈ L.foldl (fun moves from_sq =>
      b.add_moves moves from_sq (b.get_piece_moves pt from_sq occ pidx &&& oppbb) true) acc) :
    m ∈ acc ∨ ∃ f ∈ L, ∃ t : Nat, t < 128 ∧ oppbb.testBit t = true ∧
      m = Move.new f t (some (b.board t)) := by
  refine fold_mem_general _
    (fun f m => ∃ t : Nat, t < 128 ∧ oppbb.testBit t = true ∧
      m = Move.new f t (some (b.board t))) _ ?_ acc m h
  intro acc3 from_sq m3 _ hm3
  rcases add_moves_mem b acc3 from_sq _ true m3 hm3 with h4 | h4
  · exact Or.inl h4
  · obtain ⟨t, htm, hmeq⟩ := h4
    have hband : (b.get_piece_moves pt from_sq occ pidx &&& oppbb) < 2 ^ 128 :=
      Nat.lt_of_le_of_lt Nat.and_le_right hopp
    obtain ⟨htbit, ht128⟩ := squaresOf_sound _ hband t htm
    rw [Nat.testBit_and, Bool.and_eq_true] at htbit
    exact Or.inr ⟨t, ht128, htbit.2, hmeq⟩

theorem generate_moves_captures_mem (b : Board) (acc : List Move) (m : Move)
    (hopp : b.color_bitboards (1 - b.player_to_move.get_bb_idx) < 2 ^ 128)
    (hpb : ∀ i, i < 14 → b.piece_bitboards i < 2 ^ 128)
    (h : m ∈ b.generate_moves acc .Captures) :
    m ∈ acc ∨ ∃ f t : Nat, f < 128 ∧ t < 128 ∧
      (b.color_bitboards (1 - b.player_to_move.get_bb_idx)).testBit t = true ∧
      m = Move.new f t (some (b.board t)) := by
  unfold Board.generate_moves at h
  refine (fold_mem_general _
    (fun i m => ∃ f t : Nat, f < 128 ∧ t < 128 ∧
      (b.color_bitboards (1 - b.player_to_move.get_bb_idx)).testBit t = true ∧
      m = Move.new f t (some (b.board t))) _
    ?_ acc m h).imp id (fun h2 => ?_)
  · intro acc2 i m2 hiL hm2
    have hi14 : i < 14 := by
      rcases List.mem_range'_1.1 hiL with ⟨_, hlt⟩
      split at hlt <;> omega
    by_cases hz : b.piece_bitboards i = 0
    · rw [if_pos hz] at hm2
      exact Or.inl hm2
    · rw [if_neg hz] at hm2
      rcases inner_captures_mem b _ _ _ _ hopp _ acc2 m2 hm2 with h3 | h3
      · exact Or.inl h3
      · obtain ⟨f, hf, t, ht, htb, hmeq⟩ := h3
        have hf128 : f < 128 := (squaresOf_sound _ (hpb i hi14) f hf).2
        exact Or.inr ⟨f, t, hf128, ht, htb, hmeq⟩
  · obtain ⟨i, _, hrest⟩ := h2
    exact hrest

theorem mem_insertSorted (le : ScoredMove → ScoredMove → Bool) (a x : ScoredMove) :
    ∀ l, x ∈ insertSorted le a l → x = a ∨ x ∈ l := by
  intro l
  induction l with
  | nil =>
    intro h
    simp [insertSorted] at h
    exact Or.inl h
  | cons b bs ih =>
    intro h
    simp only [insertSorted] at h
    split at h
    · rcases List.mem_cons.1 h with h2 | h2
      · exact Or.inl h2
      · exact Or.inr h2
    · rcases List.mem_cons.1 h with h2 | h2
      · exact Or.inr (List.mem_cons.2 (Or.inl h2))
      · rcases ih h2 with h3 | h3
        · exact Or.inl h3
        · exact Or.inr (List.mem_cons.2 (Or.inr h3))

theorem mem_sortScored (x : ScoredMove) : ∀ l, x ∈ sortScored l → x ∈ l := by
  intro l
  induction l with
  | nil => intro h; exact absurd h (by simp [sortScored])
  | cons a as ih =>
    intro h
    unfold sortScored at h
    rw [List.foldr_cons] at h
    rcases mem_insertSorted _ a x _ h with h2 | h2
    · exact h2 ▸ List.mem_cons_self a as
    · exact List.mem_cons_of_mem a (ih h2)

theorem quiescence_moves_mem (b : Board) (m : Move)
    (hopp : b.color_bitboards (1 - b.player_to_move.get_bb_idx) < 2 ^ 128)
    (hpb : ∀ i, i < 14 → b.piece_bitboards i < 2 ^ 128)
    (hm : m ∈ quiescence_moves b) :
    (b.color_bitboards (1 - b.player_to_move.get_bb_idx)).testBit m.to_sq = true ∨
    is_king_in_check (b.move_piece m).1 (b.move_piece m).1.player_to_move = true := by
  unfold quiescence_moves at hm
  have Hstep : ∀ (acc : List Move) (x m2 : Move), x ∈ b.generate_quiet_moves [] →
      m2 ∈ (fun moves mv =>
        let bm := (b.move_piece mv).1
        if is_king_in_check bm bm.player_to_move then movelist_add moves mv else moves)
        acc x →
      m2 ∈ acc ∨
        (is_king_in_check (b.move_piece x).1 (b.move_piece x).1.player_to_move = true ∧
          m2 = x) := by
    intro acc x m2 _ hm2
    dsimp only at hm2
    split at hm2
    · rcases mem_movelist_add _ _ _ hm2 with h2 | h2
      · exact Or.inl h2
      · rename_i hchk
        exact Or.inr ⟨hchk, h2⟩
    · exact Or.inl hm2
  rcases fold_mem_general _
    (fun x m2 =>
      is_king_in_check (b.move_piece x).1 (b.move_piece x).1.player_to_move = true ∧
        m2 = x) _ Hstep _ m hm with h2 | h2
  · rcases generate_moves_captures_mem b [] m hopp hpb h2 with h3 | h3
    · exact absurd h3 (List.not_mem_nil m)
    · obtain ⟨f, t, hf, ht, htb, hmeq⟩ := h3
      left
      rw [hmeq, move_new_to_sq f t hf ht]
      exact htb
  · obtain ⟨x, _, hchk, hmeq⟩ := h2
    right
    rw [hmeq]
    exact hchk

/-- Claim C5, counterexample: on a board where Red's rook can check the Black
king, `quiescence_search`'s move loop (embedded as `quiescence_recursed_moves`)
makes and recurses on the quiet move 45 -> 0: its destination square is empty
before the move and its capture flag is unset, refuting "quiescence never
recurses on a non-capture move". -/
theorem c5_counterexample :
    Move.new 45 0 none ∈ quiescence_recursed_moves fresh_engine c5_board 0 ∧
    c5_board.board (Move.new 45 0 none).to_sq = Piece.Empty ∧
    (Move.new 45 0 none).is_capture = false := by
  refine ⟨by decide, by decide, by decide⟩

/-- Claim C5, amended: every move the quiescence loop makes and recurses on is
either a capture (an opponent piece stands on its destination square before the
move) or a quiet move that gives check - the side to move after it is in check.
The hypotheses bound the board's bitboards to 128 bits, as for any board built
by the embedded code. -/
theorem c5_recursed_moves_capture_or_check (e : EngineSt) (b : Board) (ply : Nat)
    (m : Move)
    (hopp : b.color_bitboards (1 - b.player_to_move.get_bb_idx) < 2 ^ 128)
    (hpb : ∀ i, i < 14 → b.piece_bitboards i < 2 ^ 128)
    (hm : m ∈ quiescence_recursed_moves e b ply) :
    (b.color_bitboards (1 - b.player_to_move.get_bb_idx)).testBit m.to_sq = true ∨
    is_king_in_check (b.move_piece m).1 (b.move_piece m).1.player_to_move = true := by
  unfold quiescence_recursed_moves at hm
  have h1 := (List.mem_filter.1 hm).1
  obtain ⟨sm, hsm, hmv⟩ := List.mem_map.1 h1
  have h2 := mem_sortScored sm _ hsm
  obtain ⟨mv0, hmv0, heq⟩ := List.mem_map.1 h2
  have hm0 : m = mv0 := by rw [← hmv, ← heq]
  rw [hm0]
  exact quiescence_moves_mem b mv0 hopp hpb hmv0

/-- Witness for C5's amended theorem at a concrete input: the checking quiet
move 45 -> 49 of the C5 board is recursed on, and the theorem's disjunction
holds for it. -/
theorem c5_recursed_moves_capture_or_check_witness :
    c5_board.color_bitboards (1 - c5_board.player_to_move.get_bb_idx) < 2 ^ 128 ∧
    (∀ i, i < 14 → c5_board.piece_bitboards i < 2 ^ 128) ∧
    Move.new 45 49 none ∈ quiescence_recursed_moves fresh_engine c5_board 0 ∧
    ((c5_board.color_bitboards (1 - c5_board.player_to_move.get_bb_idx)).testBit
        (Move.new 45 49 none).to_sq = true ∨
      is_king_in_check (c5_board.move_piece (Move.new 45 49 none)).1
        (c5_board.move_piece (Move.new 45 49 none)).1.player_to_move = true) :=
  ⟨by decide, by decide, by decide,
    c5_recursed_moves_capture_or_check fresh_engine c5_board 0 (Move.new 45 49 none)
      (by decide) (by decide) (by decide)⟩

theorem msbGo_spec : ∀ (f n : Nat), n ≠ 0 → n < 2 ^ f →
    n.testBit (msbGo f n) = true ∧ ∀ i, msbGo f n < i → n.testBit i = false := by
  intro f
  induction f with
  | zero => intro n h0 h1; omega
  | succ f ih =>
    intro n h0 h1
    unfold msbGo
    by_cases hlt : n < 2
    · have hn1 : n = 1 := by omega
      subst hn1
      rw [if_pos hlt]
      refine ⟨by decide, ?_⟩
      intro i hi
      apply Nat.testBit_lt_two_pow
      calc (1 : Nat) < 2 ^ 1 := by decide
      _ ≤ 2 ^ i := Nat.pow_le_pow_right (by omega) (by omega)
    · rw [if_neg hlt]
      have hhalf : n / 2 ≠ 0 := by omega
      have hlt2 : n / 2 < 2 ^ f := by
        rw [pow_succ] at h1
        omega
      obtain ⟨ht, hhi⟩ := ih (n / 2) hhalf hlt2
      constructor
      · rw [Nat.testBit_succ]
        exact ht
      · intro i hi
        obtain ⟨j, rfl⟩ : ∃ j, i = j + 1 := ⟨i - 1, by omega⟩
        rw [Nat.testBit_succ]
        exact hhi j (by omega)

theorem msb_spec (n : Nat) (h0 : n ≠ 0) (h1 : n < 2 ^ 128) :
    n.testBit (msb_index n) = true ∧ ∀ i, msb_index n < i → n.testBit i = false := by
  unfold msb_index
  exact msbGo_spec 128 n h0 h1

theorem dirPick_spec (d : Dir) (n : Nat) (h0 : n ≠ 0) (h1 : n < 2 ^ 128) :
    n.testBit (dirPick d n) = true ∧
      ∀ u, nearer d u (dirPick d n) → n.testBit u = false := by
  cases d <;> simp only [dirPick, nearer] <;>
    first
      | exact ⟨(msb_spec n h0 h1).1, fun u hu => (msb_spec n h0 h1).2 u hu⟩
      | exact ⟨(trailing_zeros_spec n h0 h1).1,
          fun u hu => (trailing_zeros_spec n h0 h1).2 u hu⟩

theorem nearer_trichotomy (d : Dir) (u t : Nat) (hne : u ≠ t) :
    nearer d u t ∨ nearer d t u := by
  cases d <;> simp [nearer] <;> omega

theorem nearer_irrefl (d : Dir) (t : Nat) : ¬ nearer d t t := by
  cases d <;> simp [nearer]

theorem nearer_trans (d : Dir) (a b c : Nat) (h1 : nearer d a b) (h2 : nearer d b c) :
    nearer d a c := by
  cases d <;> simp [nearer] at * <;> omega

theorem nearer_asymm (d : Dir) (u t : Nat) (h : nearer d u t) : ¬ nearer d t u := by
  cases d <;> simp [nearer] at * <;> omega

theorem mem_ray_north (sq t : Nat) :
    t ∈ ray_squares Dir.North sq ↔ t % 9 = sq % 9 ∧ t < sq := by
  simp only [ray_squares, List.mem_map, List.mem_reverse, List.mem_range, sq_to_idx]
  constructor
  · rintro ⟨i, hi, rfl⟩
    omega
  · rintro ⟨h1, h2⟩
    exact ⟨t / 9, by omega, by omega⟩

theorem mem_ray_east (sq t : Nat) :
    t ∈ ray_squares Dir.East sq ↔ t / 9 = sq / 9 ∧ sq < t := by
  simp only [ray_squares, List.mem_map, List.mem_range'_1, sq_to_idx]
  constructor
  · rintro ⟨j, hj, rfl⟩
    omega
  · rintro ⟨h1, h2⟩
    exact ⟨t % 9, by omega, by omega⟩

theorem mem_ray_south (sq t : Nat) :
    t ∈ ray_squares Dir.South sq ↔ t % 9 = sq % 9 ∧ sq < t ∧ t < 90 := by
  simp only [ray_squares, List.mem_map, List.mem_range'_1, sq_to_idx]
  constructor
  · rintro ⟨i, hi, rfl⟩
    omega
  · rintro ⟨h1, h2, h3⟩
    exact ⟨t / 9, by omega, by omega⟩

theorem mem_ray_west (sq t : Nat) :
    t ∈ ray_squares Dir.West sq ↔ t / 9 = sq / 9 ∧ t < sq := by
  simp only [ray_squares, List.mem_map, List.mem_reverse, List.mem_range, sq_to_idx]
  constructor
  · rintro ⟨j, hj, rfl⟩
    omega
  · rintro ⟨h1, h2⟩
    exact ⟨t % 9, by omega, by omega⟩

theorem ray_sq_lt (d : Dir) (sq : Nat) (hsq : sq < 90) :
    ∀ t ∈ ray_squares d sq, t < 90 := by
  intro t ht
  cases d
  · rw [mem_ray_north] at ht; omega
  · rw [mem_ray_east] at ht; omega
  · rw [mem_ray_south] at ht; omega
  · rw [mem_ray_west] at ht; omega

theorem not_mem_ray_self (d : Dir) (sq : Nat) : sq ∉ ray_squares d sq := by
  cases d
  · rw [mem_ray_north]; omega
  · rw [mem_ray_east]; omega
  · rw [mem_ray_south]; omega
  · rw [mem_ray_west]; omega

theorem mem_ray_nearer (d : Dir) (sq t : Nat) (ht : t ∈ ray_squares d sq) :
    nearer d sq t := by
  cases d
  · rw [mem_ray_north] at ht; simp [nearer]; omega
  · rw [mem_ray_east] at ht; simp [nearer]; omega
  · rw [mem_ray_south] at ht; simp [nearer]; omega
  · rw [mem_ray_west] at ht; simp [nearer]; omega

theorem sub_ray_mem (d : Dir) (sq s t : Nat) (hs : s ∈ ray_squares d sq) :
    t ∈ ray_squares d s ↔ (t ∈ ray_squares d sq ∧ nearer d s t) := by
  cases d
  · simp only [mem_ray_north, nearer] at *
    omega
  · simp only [mem_ray_east, nearer] at *
    omega
  · simp only [mem_ray_south, nearer] at *
    omega
  · simp only [mem_ray_west, nearer] at *
    omega

theorem nodup_ray (d : Dir) (sq : Nat) : (ray_squares d sq).Nodup := by
  cases d
  · exact List.Nodup.map (fun a b hab => by simp only [sq_to_idx] at hab; omega)
      (List.nodup_reverse.mpr (List.nodup_range _))
  · exact List.Nodup.map (fun a b hab => by simp only [sq_to_idx] at hab; omega)
      (List.nodup_range' _ _ _ one_pos)
  · exact List.Nodup.map (fun a b hab => by simp only [sq_to_idx] at hab; omega)
      (List.nodup_range' _ _ _ one_pos)
  · exact List.Nodup.map (fun a b hab => by simp only [sq_to_idx] at hab; omega)
      (List.nodup_reverse.mpr (List.nodup_range _))

theorem maskOfList_fold_testBit (t : Nat) :
    ∀ (L : List Nat) (acc : Nat),
      ((L.foldl (fun acc s => acc ||| bbMask s) acc).testBit t = true) ↔
        (acc.testBit t = true ∨ t ∈ L) := by
  intro L
  induction L with
  | nil => intro acc; simp
  | cons a L ih =>
    intro acc
    rw [List.foldl_cons, ih]
    simp only [Nat.testBit_or, Bool.or_eq_true, List.mem_cons]
    rw [bbMask, Nat.testBit_two_pow]
    constructor
    · rintro ((h | h) | h)
      · exact Or.inl h
      · exact Or.inr (Or.inl (Eq.symm (by simpa using h)))
      · exact Or.inr (Or.inr h)
    · rintro (h | h | h)
      · exact Or.inl (Or.inl h)
      · exact Or.inl (Or.inr (by simp [h]))
      · exact Or.inr h

theorem maskOfList_testBit (L : List Nat) (t : Nat) :
    ((maskOfList L).testBit t = true) ↔ t ∈ L := by
  unfold maskOfList
  rw [maskOfList_fold_testBit]
  simp

theorem rays_testBit (d : Dir) (sq t : Nat) :
    ((rays d sq).testBit t = true) ↔ t ∈ ray_squares d sq := by
  unfold rays
  exact maskOfList_testBit _ _

theorem maskOfList_lt (k : Nat) :
    ∀ (L : List Nat), (∀ s ∈ L, s < k) → ∀ acc, acc < 2 ^ k →
      L.foldl (fun acc s => acc ||| bbMask s) acc < 2 ^ k := by
  intro L
  induction L with
  | nil => intro _ acc hacc; exact hacc
  | cons a L ih =>
    intro hL acc hacc
    rw [List.foldl_cons]
    refine ih (fun s hs => hL s (List.mem_cons_of_mem a hs)) _ ?_
    exact Nat.or_lt_two_pow hacc
      (Nat.pow_lt_pow_right one_lt_two (hL a (List.mem_cons_self a L)))

theorem rays_lt (d : Dir) (sq : Nat) (hsq : sq < 90) : rays d sq < 2 ^ 128 := by
  unfold rays maskOfList
  exact maskOfList_lt 128 _ (fun s hs => by have := ray_sq_lt d sq hsq s hs; omega) 0
    (by norm_num)

theorem get_cannon_moves_fold (sq occupied : Nat) :
    get_cannon_moves_bb sq occupied =
      [Dir.North, Dir.East, Dir.South, Dir.West].foldl
        (fun acc d => acc ||| cannonDirContrib d sq occupied) 0 := by
  unfold get_cannon_moves_bb get_sliding_piece_moves
  refine List.foldl_ext _ _ _ ?_
  intro acc d _
  dsimp only
  unfold cannonDirContrib dirPick
  simp only [Bool.not_true, Bool.false_eq_true, if_false, ite_false]
  split_ifs <;> simp [Nat.or_assoc]

theorem get_cannon_moves_eq (sq occupied : Nat) :
    get_cannon_moves_bb sq occupied =
      ((cannonDirContrib Dir.North sq occupied |||
        cannonDirContrib Dir.East sq occupied) |||
        cannonDirContrib Dir.South sq occupied) |||
        cannonDirContrib Dir.West sq occupied := by
  rw [get_cannon_moves_fold]
  simp [List.foldl_cons, List.foldl_nil]

theorem rays_testBit_false (d : Dir) (sq u : Nat) (h : u ∉ ray_squares d sq) :
    (rays d sq).testBit u = false := by
  cases hcb : (rays d sq).testBit u
  · rfl
  · exact absurd ((rays_testBit d sq u).1 hcb) h

theorem bbMask_testBit_self (s : Nat) : (bbMask s).testBit s = true := by
  simp [bbMask, Nat.testBit_two_pow]

theorem bbMask_testBit_ne (s u : Nat) (h : s ≠ u) : (bbMask s).testBit u = false := by
  rw [bbMask, Nat.testBit_two_pow]
  exact decide_eq_false h

theorem xor_single_testBit (n s u : Nat) (hset : n.testBit s = true) :
    ((n ^^^ bbMask s).testBit u = true) ↔ (n.testBit u = true ∧ u ≠ s) := by
  by_cases hus : u = s
  · subst hus
    simp [Nat.testBit_xor, hset, bbMask_testBit_self]
  · simp [Nat.testBit_xor, bbMask_testBit_ne s u (fun h => hus h.symm), hus]

theorem cannon_base_testBit (d : Dir) (sq S u : Nat) (hS : S ∈ ray_squares d sq) :
    ((((rays d sq ^^^ rays d S) ^^^ bbMask S).testBit u = true) ↔
      (u ∈ ray_squares d sq ∧ nearer d u S)) := by
  by_cases huS : u = S
  · subst huS
    have ha : (rays d sq).testBit u = true := (rays_testBit d sq u).2 hS
    have hb : (rays d u).testBit u = false := rays_testBit_false d u u (not_mem_ray_self d u)
    simp [Nat.testBit_xor, ha, hb, bbMask_testBit_self, nearer_irrefl]
  · have hc : (bbMask S).testBit u = false := bbMask_testBit_ne S u (fun h => huS h.symm)
    by_cases huR : u ∈ ray_squares d sq
    · have ha : (rays d sq).testBit u = true := (rays_testBit d sq u).2 huR
      by_cases hn : nearer d S u
      · have hb : (rays d S).testBit u = true :=
          (rays_testBit d S u).2 ((sub_ray_mem d sq S u hS).2 ⟨huR, hn⟩)
        simp only [Nat.testBit_xor, ha, hb, hc, Bool.xor_self, Bool.xor_false,
          Bool.false_eq_true, false_iff, not_and]
        exact fun _ => nearer_asymm d S u hn
      · have hb : (rays d S).testBit u = false := by
          cases hcb : (rays d S).testBit u
          · rfl
          · exact absurd ((sub_ray_mem d sq S u hS).1 ((rays_testBit d S u).1 hcb)).2 hn
        have hnu : nearer d u S := (nearer_trichotomy d u S huS).resolve_right hn
        simp [Nat.testBit_xor, ha, hb, hc, huR, hnu]
    · have ha : (rays d sq).testBit u = false := rays_testBit_false d sq u huR
      have hb : (rays d S).testBit u = false := by
        cases hcb : (rays d S).testBit u
        · rfl
        · exact absurd ((sub_ray_mem d sq S u hS).1 ((rays_testBit d S u).1 hcb)).1 huR
      simp [Nat.testBit_xor, ha, hb, hc, huR]

theorem two_le_length_of_mem_ne {a b : Nat} {l : List Nat} (ha : a ∈ l) (hb : b ∈ l)
    (hne : a ≠ b) : 2 ≤ l.length := by
  cases l with
  | nil => exact absurd ha (List.not_mem_nil a)
  | cons x xs =>
    cases xs with
    | nil =>
      have h1 : a = x := by simpa using ha
      have h2 : b = x := by simpa using hb
      exact absurd (h1.trans h2.symm) hne
    | cons y ys => simp [List.length_cons]

theorem length_filter_unique {p : Nat → Bool} {L : List Nat} {a : Nat}
    (hnd : L.Nodup) (haL : a ∈ L) (hpa : p a = true)
    (huniq : ∀ u ∈ L, p u = true → u = a) : (L.filter p).length = 1 := by
  have hmem : a ∈ L.filter p := List.mem_filter.2 ⟨haL, hpa⟩
  have hnd2 : (L.filter p).Nodup := hnd.filter p
  have hall : ∀ b ∈ L.filter p, b = a := fun b hb =>
    huniq b (List.mem_filter.1 hb).1 (List.mem_filter.1 hb).2
  rcases hfp : L.filter p with _ | ⟨x, xs⟩
  · rw [hfp] at hmem
    exact absurd hmem (List.not_mem_nil a)
  · rcases xs with _ | ⟨y, ys⟩
    · rfl
    · exfalso
      have hx : x = a := hall x (by rw [hfp]; exact List.mem_cons_self _ _)
      have hy : y = a := hall y (by
        rw [hfp]
        exact List.mem_cons_of_mem _ (List.mem_cons_self _ _))
      rw [hfp] at hnd2
      exact (List.nodup_cons.1 hnd2).1 (by
        rw [hx, ← hy]
        exact List.mem_cons_self _ _)

theorem cannonDirContrib_spec (d : Dir) (sq occ t : Nat) (hsq : sq < 90) :
    ((cannonDirContrib d sq occ).testBit t = true) ↔
      (t ∈ ray_squares d sq ∧ cannon_ray_condition d sq occ t) := by
  have hbmem : ∀ u, ((occ &&& rays d sq).testBit u = true) ↔
      (u ∈ ray_squares d sq ∧ occ.testBit u = true) := by
    intro u
    rw [Nat.testBit_and, Bool.and_eq_true, rays_testBit]
    tauto
  have hblt : (occ &&& rays d sq) < 2 ^ 128 :=
    Nat.lt_of_le_of_lt Nat.and_le_right (rays_lt d sq hsq)
  unfold cannonDirContrib
  dsimp only
  by_cases h1 : (occ &&& rays d sq) = 0
  · rw [if_neg (not_not_intro h1), rays_testBit]
    have hempty : ∀ u ∈ ray_squares d sq, occ.testBit u = false := by
      intro u hu
      cases hc : occ.testBit u
      · rfl
      · have := (hbmem u).2 ⟨hu, hc⟩
        rw [h1, Nat.zero_testBit] at this
        exact absurd this (by decide)
    constructor
    · intro ht
      exact ⟨ht, Or.inl ⟨hempty t ht, fun u hu _ => hempty u hu⟩⟩
    · exact fun h => h.1
  · rw [if_pos h1]
    obtain ⟨hscr_bit, hmin⟩ := dirPick_spec d _ h1 hblt
    generalize hSgen : dirPick d (occ &&& rays d sq) = S at hscr_bit hmin ⊢
    have hSR : S ∈ ray_squares d sq := ((hbmem S).1 hscr_bit).1
    have hSocc : occ.testBit S = true := ((hbmem S).1 hscr_bit).2
    have hrem : ∀ u, (((occ &&& rays d sq) ^^^ bbMask S).testBit u = true) ↔
        ((occ &&& rays d sq).testBit u = true ∧ u ≠ S) :=
      fun u => xor_single_testBit _ S u hscr_bit
    by_cases h2 : ((occ &&& rays d sq) ^^^ bbMask S) = 0
    · rw [if_neg (not_not_intro h2), cannon_base_testBit d sq S t hSR]
      have honly : ∀ u ∈ ray_squares d sq, occ.testBit u = true → u = S := by
        intro u huR huo
        by_contra hne
        have := (hrem u).2 ⟨(hbmem u).2 ⟨huR, huo⟩, hne⟩
        rw [h2, Nat.zero_testBit] at this
        exact absurd this (by decide)
      constructor
      · rintro ⟨htR, hnt⟩
        refine ⟨htR, Or.inl ⟨?_, ?_⟩⟩
        · cases hc : occ.testBit t
          · rfl
          · exact absurd (honly t htR hc) (fun h => nearer_irrefl d S (h ▸ hnt))
        · intro u huR hun
          cases hc : occ.testBit u
          · rfl
          · have huS : u = S := honly u huR hc
            rw [huS] at hun
            exact absurd hun (nearer_asymm d t S hnt)
      · rintro ⟨htR, hcond⟩
        refine ⟨htR, ?_⟩
        rcases hcond with ⟨hto, hq⟩ | ⟨hto, hlen⟩
        · have hne : S ≠ t := by
            intro h
            rw [h, hto] at hSocc
            exact absurd hSocc (by decide)
          rcases nearer_trichotomy d t S (fun h => hne h.symm) with hk | hk
          · exact hk
          · exact absurd (hSocc.symm.trans (hq S hSR hk)) (by decide)
        · exfalso
          obtain ⟨x, hx⟩ := List.length_eq_one.1 hlen
          have hxmem : x ∈ (ray_squares d sq).filter
              (fun u => decide (nearer d u t) && occ.testBit u) := by
            rw [hx]
            exact List.mem_cons_self _ _
          have hxR := (List.mem_filter.1 hxmem).1
          have hxp := (List.mem_filter.1 hxmem).2
          rw [Bool.and_eq_true, decide_eq_true_eq] at hxp
          have hxS : x = S := honly x hxR hxp.2
          have htS : t = S := honly t htR hto
          rw [hxS, htS] at hxp
          exact nearer_irrefl d S hxp.1
    · rw [if_pos h2]
      have hS90 : S < 90 := ray_sq_lt d sq hsq S hSR
      have hremlt : ((occ &&& rays d sq) ^^^ bbMask S) < 2 ^ 128 :=
        Nat.xor_lt_two_pow hblt
          (Nat.pow_lt_pow_right one_lt_two (by omega))
      obtain ⟨htar_bit, htarmin⟩ := dirPick_spec d _ h2 hremlt
      generalize hTgen : dirPick d ((occ &&& rays d sq) ^^^ bbMask S) = T
        at htar_bit htarmin ⊢
      have hTrem := (hrem T).1 htar_bit
      have hTR : T ∈ ray_squares d sq := ((hbmem T).1 hTrem.1).1
      have hTocc : occ.testBit T = true := ((hbmem T).1 hTrem.1).2
      have hTnS : ¬ nearer d T S := fun hk =>
        absurd (hTrem.1.symm.trans (hmin T hk)) (by decide)
      have hSnT : nearer d S T :=
        (nearer_trichotomy d S T (fun h => hTrem.2 h.symm)).resolve_right hTnS
      rw [Nat.testBit_or, Bool.or_eq_true, cannon_base_testBit d sq S t hSR]
      constructor
      · rintro (⟨htR, hnt⟩ | hTt)
        · refine ⟨htR, Or.inl ⟨?_, ?_⟩⟩
          · cases hc : occ.testBit t
            · rfl
            · exact absurd (((hbmem t).2 ⟨htR, hc⟩).symm.trans (hmin t hnt)) (by decide)
          · intro u huR hun
            cases hc : occ.testBit u
            · rfl
            · exact absurd (((hbmem u).2 ⟨huR, hc⟩).symm.trans
                (hmin u (nearer_trans d u t S hun hnt))) (by decide)
        · have hTt2 : T = t := by
            rw [bbMask, Nat.testBit_two_pow] at hTt
            exact of_decide_eq_true hTt
          refine ⟨hTt2 ▸ hTR, Or.inr ⟨hTt2 ▸ hTocc, ?_⟩⟩
          refine length_filter_unique (nodup_ray d sq) hSR ?_ ?_
          · simp only [← hTt2, Bool.and_eq_true, decide_eq_true_eq]
            exact ⟨hSnT, hSocc⟩
          · intro u huR hup
            simp only [← hTt2, Bool.and_eq_true, decide_eq_true_eq] at hup
            by_contra hne
            have hremu := (hrem u).2 ⟨(hbmem u).2 ⟨huR, hup.2⟩, hne⟩
            exact absurd (hremu.symm.trans (htarmin u hup.1)) (by decide)
      · rintro ⟨htR, hcond⟩
        rcases hcond with ⟨hto, hq⟩ | ⟨hto, hlen⟩
        · left
          refine ⟨htR, ?_⟩
          have hne : S ≠ t := by
            intro h
            rw [h, hto] at hSocc
            exact absurd hSocc (by decide)
          rcases nearer_trichotomy d t S (fun h => hne h.symm) with hk | hk
          · exact hk
          · exact absurd (hSocc.symm.trans (hq S hSR hk)) (by decide)
        · have hblkt : (occ &&& rays d sq).testBit t = true := (hbmem t).2 ⟨htR, hto⟩
          by_cases htS : t = S
          · exfalso
            obtain ⟨x, hx⟩ := List.length_eq_one.1 hlen
            have hxmem : x ∈ (ray_squares d sq).filter
                (fun u => decide (nearer d u t) && occ.testBit u) := by
              rw [hx]
              exact List.mem_cons_self _ _
            have hxR := (List.mem_filter.1 hxmem).1
            have hxp := (List.mem_filter.1 hxmem).2
            rw [Bool.and_eq_true, decide_eq_true_eq] at hxp
            have hxblk : (occ &&& rays d sq).testBit x = true := (hbmem x).2 ⟨hxR, hxp.2⟩
            exact absurd (hxblk.symm.trans (hmin x (htS ▸ hxp.1))) (by decide)
          · have hremt := (hrem t).2 ⟨hblkt, htS⟩
            have hnTt : ¬ nearer d t T := fun hk =>
              absurd (hremt.symm.trans (htarmin t hk)) (by decide)
            by_cases htT : t = T
            · right
              rw [bbMask, Nat.testBit_two_pow]
              simp [htT]
            · exfalso
              have hTt2 : nearer d T t :=
                (nearer_trichotomy d T t (fun h => htT h.symm)).resolve_right hnTt
              have hSf : S ∈ (ray_squares d sq).filter
                  (fun u => decide (nearer d u t) && occ.testBit u) :=
                List.mem_filter.2 ⟨hSR, by
                  simp only [Bool.and_eq_true, decide_eq_true_eq]
                  exact ⟨nearer_trans d S T t hSnT hTt2, hSocc⟩⟩
              have hTf : T ∈ (ray_squares d sq).filter
                  (fun u => decide (nearer d u t) && occ.testBit u) :=
                List.mem_filter.2 ⟨hTR, by
                  simp only [Bool.and_eq_true, decide_eq_true_eq]
                  exact ⟨hTt2, hTocc⟩⟩
              have h2le := two_le_length_of_mem_ne hSf hTf (fun h => hTrem.2 h.symm)
              omega

/-- Claim C7: for every origin square and occupancy, a square is in the cannon
move set `get_cannon_moves_bb` iff on one of the four rays from the origin it
satisfies the per-ray condition: every ray square nearer to the origin is empty
and the square itself is empty (the quiet segment - the whole ray when the ray
has no occupied square, otherwise exactly the squares strictly before the
nearest occupied square, never that screen square itself), or the square is
occupied with exactly one occupied ray square nearer to the origin (the capture
target just beyond the screen - any square past it would see at least two). -/
theorem c7_cannon_moves_per_ray (sq occ t : Nat) (hsq : sq < 90) :
    ((get_cannon_moves_bb sq occ).testBit t = true) ↔
      ∃ d, t ∈ ray_squares d sq ∧ cannon_ray_condition d sq occ t := by
  rw [get_cannon_moves_eq]
  simp only [Nat.testBit_or, Bool.or_eq_true]
  rw [cannonDirContrib_spec Dir.North sq occ t hsq,
    cannonDirContrib_spec Dir.East sq occ t hsq,
    cannonDirContrib_spec Dir.South sq occ t hsq,
    cannonDirContrib_spec Dir.West sq occ t hsq]
  constructor
  · rintro (((h | h) | h) | h)
    exacts [⟨.North, h⟩, ⟨.East, h⟩, ⟨.South, h⟩, ⟨.West, h⟩]
  · rintro ⟨d, h⟩
    cases d
    exacts [Or.inl (Or.inl (Or.inl h)), Or.inl (Or.inl (Or.inr h)),
      Or.inl (Or.inr h), Or.inr h]

/-- Witness for C7 at a concrete input: a cannon on square 40 with occupied
squares 22 (the screen) and 4 (the capture target) on its north ray. -/
theorem c7_cannon_moves_per_ray_witness :
    40 < 90 ∧
    (((get_cannon_moves_bb 40 (bbMask 22 ||| bbMask 4)).testBit 4 = true) ↔
      ∃ d, 4 ∈ ray_squares d 40 ∧ cannon_ray_condition d 40 (bbMask 22 ||| bbMask 4) 4) :=
  ⟨by decide, c7_cannon_moves_per_ray 40 (bbMask 22 ||| bbMask 4) 4 (by decide)⟩
